import Mathlib

/-!
Shallow embedding of `src/main/drivers/pwm_output.c` (Cleanflight/Betaflight
PWM motor-output driver).

Modelling conventions:
* The two static port banks (`motors`, `servos`), the completion function
  pointer `pwmCompleteWritePtr` and the enable flag `pwmMotorsEnabled` form an
  explicit state record `PwmState`.
* A compare-register handle (`timCCR_t *ccr`) is `Option Nat`: `none` is the
  NULL pointer, `some v` is a handle whose 16-bit register currently holds `v`.
  Stores into the register wrap modulo 2^16 (`u16`).
* Timer identities (`TIM_TypeDef *tim`) are bare naturals; `0` is NULL
  (the zero-initialised static value).
* Fallible C operations (array reads that may be out of bounds, stores through
  a possibly-NULL pointer) return `Option`: `none` marks the executions that
  are undefined behaviour in the C source.
* `lrintf` on `float` is modelled by `lrintfQ num den`: round-to-nearest,
  ties-to-even, of the exact rational `num/den` (the default FE_TONEAREST
  behaviour of `lrintf`).  On every domain verified below the binary32
  evaluation in the source agrees with the exact rational: the OneShot125
  quotient divides by a power of two exactly, the OneShot42 quotient is an
  integer, and the Multishot result always lies at distance at least 1/50
  from the nearest half-integer while the accumulated float error is below
  4e-5, so rounding the float and rounding the exact rational coincide.
* Calls into the timer/GPIO hardware layers (`timerForceOverflow`,
  `configTimeBase`, `timerOCInit`, `IOInit`, ...) either have no effect on
  this core's state or are recorded as events (forced overflows are returned
  as the list of timer identities, in issuance order).
-/

namespace PwmOutput

/-- Fixed capacity of the motor bank.  `MAX_SUPPORTED_MOTORS` is defined in
the platform headers, which are outside the translated sources; the value 8
is the common platform maximum and no claim below depends on the specific
number. -/
def MAX_SUPPORTED_MOTORS : Nat := 8

/-- Fixed capacity of the servo bank (platform header, outside the translated
sources). -/
def MAX_SUPPORTED_SERVOS : Nat := 8

/-- Modelled from the spec: clock-rate constant `ONESHOT125_TIMER_MHZ` from
`pwm_output.h` (outside the translated sources); the spec's conformance cases
use mhz = 8 for OneShot125. -/
def ONESHOT125_TIMER_MHZ : Nat := 8

/-- Modelled from the spec: clock-rate constant `ONESHOT42_TIMER_MHZ` from
`pwm_output.h` (outside the translated sources); the spec's conformance cases
use mhz = 24 for OneShot42. -/
def ONESHOT42_TIMER_MHZ : Nat := 24

/-- Modelled from the spec: clock-rate constant `MULTISHOT_TIMER_MHZ` from
`pwm_output.h` (outside the translated sources); the spec's conformance cases
use mhz = 8 for Multishot. -/
def MULTISHOT_TIMER_MHZ : Nat := 8

/-- Modelled from the spec: fixed-rate clock constant `PWM_TIMER_MHZ`
(platform header, outside the translated sources).  No claim depends on the
value. -/
def PWM_TIMER_MHZ : Nat := 1

/-- Modelled from the spec: brushed-motor clock constant
`PWM_BRUSHED_TIMER_MHZ` (platform header, outside the translated sources).
No claim depends on the value. -/
def PWM_BRUSHED_TIMER_MHZ : Nat := 24

/-- `MULTISHOT_5US_PW = MULTISHOT_TIMER_MHZ * 5`. -/
def MULTISHOT_5US_PW : Nat := MULTISHOT_TIMER_MHZ * 5

/-- Conversion of a C `int` to the 16-bit compare register: reduction
modulo 2^16. -/
def u16 (x : Int) : Nat := (x % 65536).toNat

/-- Conversion of a C `uint32_t` value to a `uint16_t` function parameter:
reduction modulo 2^16. -/
def u16n (n : Nat) : Nat := n % 65536

/-- Round-to-nearest, ties-to-even, of the exact rational `num/den`
(`den > 0`): the value C's `lrintf` returns in the default rounding mode when
its float argument denotes `num/den`. -/
def lrintfQ (num den : Int) : Int :=
  let q := num / den
  let r := num % den
  if 2 * r < den then q
  else if den < 2 * r then q + 1
  else if q % 2 = 0 then q else q + 1

/-- The per-port write functions whose addresses are stored in
`pwmWritePtr` (the five analog encoders of this file plus the external
`pwmWriteDigital` of the Dshot bridge). -/
inductive PwmWriteFn where
  | standard
  | brushed
  | oneshot125
  | oneshot42
  | multishot
  | digital
deriving DecidableEq, Repr

/-- The completion functions whose addresses are stored in
`pwmCompleteWritePtr`: `pwmCompleteOneshotMotorUpdate` of this file or the
external `pwmCompleteDigitalMotorUpdate` of the Dshot bridge. -/
inductive PwmCompleteFn where
  | oneshot
  | digital
deriving DecidableEq, Repr

/-- `pwmOutputPort_t`: one slot of a port bank.  The `io` field (GPIO handle)
is owned by the external GPIO layer and never read by this file's logic, so
it is omitted. -/
structure PwmOutputPort where
  ccr : Option Nat
  period : Nat
  tim : Nat
  pwmWritePtr : Option PwmWriteFn
  enabled : Bool
deriving DecidableEq, Repr

/-- The zero-initialised port, the value every slot of the static banks holds
at program start. -/
def pwmOutputPortZero : PwmOutputPort :=
  { ccr := none, period := 0, tim := 0, pwmWritePtr := none, enabled := false }

instance : Inhabited PwmOutputPort := ⟨pwmOutputPortZero⟩

/-- The driver's static state: the two port banks, the completion binding and
the global enable flag. -/
structure PwmState where
  motors : List PwmOutputPort
  servos : List PwmOutputPort
  pwmCompleteWritePtr : Option PwmCompleteFn
  pwmMotorsEnabled : Bool
deriving DecidableEq, Repr

/-- The state at program start: zero-initialised banks, NULL completion
binding, `pwmMotorsEnabled = true` (its static initialiser). -/
def initialPwmState : PwmState :=
  { motors := List.replicate MAX_SUPPORTED_MOTORS pwmOutputPortZero
    servos := List.replicate MAX_SUPPORTED_SERVOS pwmOutputPortZero
    pwmCompleteWritePtr := none
    pwmMotorsEnabled := true }

/-- Reading `motors[i]` (total helper for statements; in-bounds indices
only are ever produced by the operations below). -/
def motorAt (s : PwmState) (i : Nat) : PwmOutputPort :=
  s.motors.getD i pwmOutputPortZero

/-- Reading `servos[i]`. -/
def servoAt (s : PwmState) (i : Nat) : PwmOutputPort :=
  s.servos.getD i pwmOutputPortZero

/-- The store `*motors[index].ccr = x;`: `none` when `index` is out of bounds
of the bank or the handle is NULL (undefined behaviour in the source). -/
def storeMotorCompare (s : PwmState) (index : Nat) (x : Int) : Option PwmState :=
  match s.motors[index]? with
  | none => none
  | some port =>
    match port.ccr with
    | none => none
    | some _ => some { s with motors := s.motors.set index { port with ccr := some (u16 x) } }

/-- `pwmWriteBrushed`: `*motors[index].ccr = (value - 1000) * motors[index].period / 1000;`
(C `int` arithmetic: truncating division). -/
def pwmWriteBrushed (s : PwmState) (index value : Nat) : Option PwmState :=
  storeMotorCompare s index
    (Int.tdiv (((value : Int) - 1000) * ((motorAt s index).period : Int)) 1000)

/-- `pwmWriteStandard`: `*motors[index].ccr = value;`. -/
def pwmWriteStandard (s : PwmState) (index value : Nat) : Option PwmState :=
  storeMotorCompare s index (value : Int)

/-- `pwmWriteOneShot125`: `*motors[index].ccr = lrintf((float)(value * ONESHOT125_TIMER_MHZ/8.0f));`
(the integer product `value * ONESHOT125_TIMER_MHZ` divided by 8). -/
def pwmWriteOneShot125 (s : PwmState) (index value : Nat) : Option PwmState :=
  storeMotorCompare s index (lrintfQ ((value : Int) * (ONESHOT125_TIMER_MHZ : Int)) 8)

/-- `pwmWriteOneShot42`: `*motors[index].ccr = lrintf((float)(value * ONESHOT42_TIMER_MHZ/24.0f));`. -/
def pwmWriteOneShot42 (s : PwmState) (index value : Nat) : Option PwmState :=
  storeMotorCompare s index (lrintfQ ((value : Int) * (ONESHOT42_TIMER_MHZ : Int)) 24)

/-- `pwmWriteMultiShot`: `*motors[index].ccr = lrintf(((float)(value-1000) * MULTISHOT_20US_MULT) + MULTISHOT_5US_PW);`
where `MULTISHOT_20US_MULT = MULTISHOT_TIMER_MHZ * 20 / 1000.0f`; the exact
rational argument is `((value-1000) * (mhz*20) + 1000 * (mhz*5)) / 1000`. -/
def pwmWriteMultiShot (s : PwmState) (index value : Nat) : Option PwmState :=
  storeMotorCompare s index
    (lrintfQ (((value : Int) - 1000) * ((MULTISHOT_TIMER_MHZ : Int) * 20)
                + 1000 * (MULTISHOT_5US_PW : Int)) 1000)

/-- The indirect call `motors[index].pwmWritePtr(index, value)`.
`pwmWriteDigital` is external to this core (Dshot bridge) and does not touch
this state. -/
def pwmWriteCall (fn : PwmWriteFn) (s : PwmState) (index value : Nat) : Option PwmState :=
  match fn with
  | PwmWriteFn.standard => pwmWriteStandard s index value
  | PwmWriteFn.brushed => pwmWriteBrushed s index value
  | PwmWriteFn.oneshot125 => pwmWriteOneShot125 s index value
  | PwmWriteFn.oneshot42 => pwmWriteOneShot42 s index value
  | PwmWriteFn.multishot => pwmWriteMultiShot s index value
  | PwmWriteFn.digital => some s

/-- `pwmWriteMotor`: guarded dispatch through the port's bound write
function. -/
def pwmWriteMotor (s : PwmState) (index value : Nat) : Option PwmState :=
  if index < MAX_SUPPORTED_MOTORS ∧ s.pwmMotorsEnabled then
    match s.motors[index]? with
    | none => none
    | some port =>
      match port.pwmWritePtr with
      | none => some s
      | some fn => pwmWriteCall fn s index value
  else some s

/-- Specification-side: the integer each analog write function computes for
its compare-register store (period only matters for the brushed encoder);
`digital` has no in-core encoder. -/
def encodeAnalog (fn : PwmWriteFn) (period value : Nat) : Int :=
  match fn with
  | PwmWriteFn.standard => (value : Int)
  | PwmWriteFn.brushed => Int.tdiv (((value : Int) - 1000) * (period : Int)) 1000
  | PwmWriteFn.oneshot125 => lrintfQ ((value : Int) * (ONESHOT125_TIMER_MHZ : Int)) 8
  | PwmWriteFn.oneshot42 => lrintfQ ((value : Int) * (ONESHOT42_TIMER_MHZ : Int)) 24
  | PwmWriteFn.multishot =>
    lrintfQ (((value : Int) - 1000) * ((MULTISHOT_TIMER_MHZ : Int) * 20)
               + 1000 * (MULTISHOT_5US_PW : Int)) 1000
  | PwmWriteFn.digital => 0

/-- The loop body iterations of `pwmShutdownPulsesForAllMotors` for indices
`0 .. n-1` in ascending order: if `motors[index].ccr` is non-NULL, store 0
through it. -/
def pwmShutdownAux (s : PwmState) : Nat → Option PwmState
  | 0 => some s
  | n + 1 =>
    match pwmShutdownAux s n with
    | none => none
    | some s1 =>
      match s1.motors[n]? with
      | none => none
      | some port =>
        match port.ccr with
        | none => some s1
        | some _ => some { s1 with motors := s1.motors.set n { port with ccr := some 0 } }

/-- `pwmShutdownPulsesForAllMotors(motorCount)`. -/
def pwmShutdownPulsesForAllMotors (s : PwmState) (motorCount : Nat) : Option PwmState :=
  pwmShutdownAux s motorCount

/-- `pwmDisableMotors`. -/
def pwmDisableMotors (s : PwmState) : PwmState :=
  { s with pwmMotorsEnabled := false }

/-- `pwmEnableMotors`. -/
def pwmEnableMotors (s : PwmState) : PwmState :=
  { s with pwmMotorsEnabled := true }

/-- The loop body iterations of `pwmCompleteOneshotMotorUpdate` for indices
`0 .. n-1` in ascending order.  Returns the final state together with the
list of timer identities passed to `timerForceOverflow`, in issuance order.
The inner loop over `j < index` that sets `overflowed` is the bounded
existence test; the unconditional store `*motors[index].ccr = 0` is undefined
behaviour (`none`) on a NULL handle. -/
def pwmCompleteOneshotAux (s : PwmState) : Nat → Option (PwmState × List Nat)
  | 0 => some (s, [])
  | n + 1 =>
    match pwmCompleteOneshotAux s n with
    | none => none
    | some (s1, evs) =>
      match s1.motors[n]? with
      | none => none
      | some port =>
        let overflowed : Bool := decide (∃ j < n, (motorAt s1 j).tim = port.tim)
        let evs1 := if overflowed then evs else evs ++ [port.tim]
        match port.ccr with
        | none => none
        | some _ =>
          some ({ s1 with motors := s1.motors.set n { port with ccr := some 0 } }, evs1)

/-- `pwmCompleteOneshotMotorUpdate(motorCount)`. -/
def pwmCompleteOneshotMotorUpdate (s : PwmState) (motorCount : Nat) :
    Option (PwmState × List Nat) :=
  pwmCompleteOneshotAux s motorCount

/-- `pwmCompleteMotorUpdate(motorCount)`: call through the completion binding
if there is one.  The digital completion is external (Dshot bridge) and does
not touch this state. -/
def pwmCompleteMotorUpdate (s : PwmState) (motorCount : Nat) :
    Option (PwmState × List Nat) :=
  match s.pwmCompleteWritePtr with
  | none => some (s, [])
  | some PwmCompleteFn.oneshot => pwmCompleteOneshotMotorUpdate s motorCount
  | some PwmCompleteFn.digital => some (s, [])

/-- `pwmIsSynced`. -/
def pwmIsSynced (s : PwmState) : Bool :=
  s.pwmCompleteWritePtr.isSome

/-- `pwmWriteServo`: store the raw value if the index is in range and the
servo's handle is non-NULL.  Note the global enable flag is not consulted. -/
def pwmWriteServo (s : PwmState) (index value : Nat) : Option PwmState :=
  if index < MAX_SUPPORTED_SERVOS then
    match s.servos[index]? with
    | none => none
    | some port =>
      match port.ccr with
      | none => some s
      | some _ => some { s with servos := s.servos.set index { port with ccr := some (u16 value) } }
  else some s

/-- The `motorPwmProtocol` enum (`PWM_TYPE_*`); `other` stands for any byte
value outside the named members, which the `switch` sends to its `default`
label. -/
inductive MotorPwmProtocol where
  | pwmTypeStandard
  | pwmTypeOneshot125
  | pwmTypeOneshot42
  | pwmTypeMultishot
  | pwmTypeBrushed
  | pwmTypeDshot150
  | pwmTypeDshot300
  | pwmTypeDshot600
  | other
deriving DecidableEq, Repr

/-- The `timerHardware_t` descriptor returned by the external resolver
`timerGetByTag`; only the owning timer identity is read by this file's
state logic (channel and output flags go to the hardware layer). -/
structure TimerHardware where
  tim : Nat
deriving DecidableEq, Repr

/-- The relevant fields of `motorConfig_t`.  `ioTags` maps a slot index to
its pin tag; tag `0` is `IO_TAG_NONE` (unset). -/
structure MotorConfig where
  motorPwmProtocol : MotorPwmProtocol
  useUnsyncedPwm : Bool
  ioTags : Nat → Nat
  motorPwmRate : Nat

/-- The external collaborators of `motorInit`: the tag-to-timer-hardware
resolver (`timerGetByTag(tag, TIMER_OUTPUT_ENABLED)`). -/
structure Env where
  timerGetByTag : Nat → Option TimerHardware

/-- The local variables `motorInit` computes in its `switch` over the
protocol: clock rate, write function, possibly-forced `useUnsyncedPwm`,
possibly-forced idle pulse, and the digital flag.  For the Dshot cases the
source leaves `timerMhzCounter`/`pwmWritePtr` uninitialised and never reads
them; the model fills in `0`/`digital`. -/
structure MotorInitSelect where
  timerMhzCounter : Nat
  pwmWritePtr : PwmWriteFn
  useUnsyncedPwm : Bool
  idlePulse : Nat
  isDigital : Bool
deriving DecidableEq, Repr

/-- The `switch (motorConfig->motorPwmProtocol)` of `motorInit`.  The
`default` label shares the OneShot125 branch. -/
def motorInitSwitch (protocol : MotorPwmProtocol) (useUnsyncedPwm : Bool)
    (idlePulse : Nat) : MotorInitSelect :=
  match protocol with
  | MotorPwmProtocol.pwmTypeOneshot42 =>
    ⟨ONESHOT42_TIMER_MHZ, PwmWriteFn.oneshot42, useUnsyncedPwm, idlePulse, false⟩
  | MotorPwmProtocol.pwmTypeMultishot =>
    ⟨MULTISHOT_TIMER_MHZ, PwmWriteFn.multishot, useUnsyncedPwm, idlePulse, false⟩
  | MotorPwmProtocol.pwmTypeBrushed =>
    ⟨PWM_BRUSHED_TIMER_MHZ, PwmWriteFn.brushed, true, 0, false⟩
  | MotorPwmProtocol.pwmTypeStandard =>
    ⟨PWM_TIMER_MHZ, PwmWriteFn.standard, true, 0, false⟩
  | MotorPwmProtocol.pwmTypeDshot600 | MotorPwmProtocol.pwmTypeDshot300
  | MotorPwmProtocol.pwmTypeDshot150 =>
    ⟨0, PwmWriteFn.digital, useUnsyncedPwm, idlePulse, true⟩
  | _ =>
    ⟨ONESHOT125_TIMER_MHZ, PwmWriteFn.oneshot125, useUnsyncedPwm, idlePulse, false⟩

/-- Replace `motors[i]`. -/
def setMotorPort (s : PwmState) (i : Nat) (port : PwmOutputPort) : PwmState :=
  { s with motors := s.motors.set i port }

/-- `pwmOutConfig` as it affects a port: obtain the compare-register handle,
record period and timer identity, and (after the hardware is programmed)
store 0 through the handle (`*port->ccr = 0;` — the idle value passed down to
`pwmOCConfig` only reaches the hardware-layer init and is then overwritten).
The `period` parameter is `uint16_t` in the source, so a caller's wider value
is converted modulo 2^16 on the way in (`u16n`).
`configTimeBase`/`pwmOCConfig`/`TIM_Cmd` are external timer calls; `mhz` and
`value` therefore do not appear in the resulting port. -/
def pwmOutConfig (port : PwmOutputPort) (timerHardware : TimerHardware)
    (_mhz period _value : Nat) : PwmOutputPort :=
  { port with ccr := some 0, period := u16n period, tim := timerHardware.tim }

/-- The population loop of `motorInit`, iterating `motorIndex` upward while
`motorIndex < MAX_SUPPORTED_MOTORS && motorIndex < motorCount`, breaking on
an unset tag or a failed timer-hardware resolution.  `fuel` is the number of
loop iterations still permitted; `motorInit` supplies
`MAX_SUPPORTED_MOTORS`, which the guard makes exact.  The division computing
the free-run period is C `uint32` division whose quotient is then converted
to `pwmOutConfig`'s `uint16_t` parameter; the source divides by the
configured rate unchecked, so `motorPwmRate = 0` is division-by-zero
undefined behaviour there — the model's `Nat` division yields 0 at that
point, and no theorem below asserts anything about the stored period unless
the configured rate is non-zero. -/
def motorInitLoop (env : Env) (motorConfig : MotorConfig) (sel : MotorInitSelect)
    (motorCount : Nat) : Nat → Nat → PwmState → PwmState
  | _, 0, s => s
  | motorIndex, fuel + 1, s =>
    if motorIndex < MAX_SUPPORTED_MOTORS ∧ motorIndex < motorCount then
      let tag := motorConfig.ioTags motorIndex
      if tag = 0 then s
      else
        match env.timerGetByTag tag with
        | none => s
        | some timerHardware =>
          if sel.isDigital then
            motorInitLoop env motorConfig sel motorCount (motorIndex + 1) fuel
              (setMotorPort s motorIndex
                { motorAt s motorIndex with
                    pwmWritePtr := some PwmWriteFn.digital, enabled := true })
          else
            let port0 := { motorAt s motorIndex with pwmWritePtr := some sel.pwmWritePtr }
            let port1 :=
              if sel.useUnsyncedPwm then
                pwmOutConfig port0 timerHardware sel.timerMhzCounter
                  (sel.timerMhzCounter * 1000000 / motorConfig.motorPwmRate) sel.idlePulse
              else
                pwmOutConfig port0 timerHardware sel.timerMhzCounter 0xFFFF 0
            motorInitLoop env motorConfig sel motorCount (motorIndex + 1) fuel
              (setMotorPort s motorIndex { port1 with enabled := true })
    else s

/-- The completion-binding assignments of `motorInit`: the Dshot `switch`
cases store the digital completion function, and after the `switch`,
`if (!useUnsyncedPwm && !isDigital) pwmCompleteWritePtr = pwmCompleteOneshotMotorUpdate;`. -/
def motorInitSetPtr (sel : MotorInitSelect) (s : PwmState) : PwmState :=
  let s1 :=
    if sel.isDigital then { s with pwmCompleteWritePtr := some PwmCompleteFn.digital } else s
  if !sel.useUnsyncedPwm && !sel.isDigital then
    { s1 with pwmCompleteWritePtr := some PwmCompleteFn.oneshot }
  else s1

/-- `motorInit`: protocol selection, completion-binding assignment, then the
population loop. -/
def motorInit (env : Env) (s : PwmState) (motorConfig : MotorConfig)
    (idlePulse : Nat) (motorCount : Nat) : PwmState :=
  let sel := motorInitSwitch motorConfig.motorPwmProtocol motorConfig.useUnsyncedPwm idlePulse
  motorInitLoop env motorConfig sel motorCount 0 MAX_SUPPORTED_MOTORS (motorInitSetPtr sel s)

/-- Concrete resolver for witnesses: tag 0 is unset; any other tag resolves
to the timer with the same identity. -/
def wsEnv : Env :=
  { timerGetByTag := fun tag => if tag = 0 then none else some { tim := tag } }

/-- Concrete motor configuration for witnesses: synced OneShot125, tags set
for slots 0 and 1 only. -/
def wsMotorConfig : MotorConfig :=
  { motorPwmProtocol := MotorPwmProtocol.pwmTypeOneshot125
    useUnsyncedPwm := false
    ioTags := fun i => if i < 2 then i + 10 else 0
    motorPwmRate := 400 }

/-- Specification-side: the indices in `0 .. n-1` that are the first carrier
of their timer identity in the motor bank (scan order). -/
def specForcedOverflowIndexes (s : PwmState) (n : Nat) : List Nat :=
  (List.range n).filter (fun i => decide (∀ j < i, (motorAt s j).tim ≠ (motorAt s i).tim))

/-- Specification-side: one forced overflow per distinct timer identity of
ports `0 .. n-1`, issued at the first index carrying that timer. -/
def specForcedOverflows (s : PwmState) (n : Nat) : List Nat :=
  (specForcedOverflowIndexes s n).map (fun i => (motorAt s i).tim)

/-- Specification-side: timer identity `t` appears among ports `0 .. n-1`. -/
def timAppears (s : PwmState) (n t : Nat) : Prop :=
  ∃ i < n, (motorAt s i).tim = t

instance (s : PwmState) (n t : Nat) : Decidable (timAppears s n t) :=
  inferInstanceAs (Decidable (∃ i < n, (motorAt s i).tim = t))

/-- Specification-side: the port contents `motorInit` is expected to leave in
a slot it successfully populates, given the resolved timer hardware (slots
start from the zero-initialised bank). -/
def specConfiguredPort (motorConfig : MotorConfig) (sel : MotorInitSelect)
    (hw : TimerHardware) : PwmOutputPort :=
  if sel.isDigital then
    { pwmOutputPortZero with pwmWritePtr := some PwmWriteFn.digital, enabled := true }
  else
    { ccr := some 0
      period :=
        if sel.useUnsyncedPwm then
          u16n (sel.timerMhzCounter * 1000000 / motorConfig.motorPwmRate)
        else 0xFFFF
      tim := hw.tim
      pwmWritePtr := some sel.pwmWritePtr
      enabled := true }

/-- Specification-side: the oneshot-family protocols (the three oneshot
variants together with any value handled by the `switch`'s `default` label,
which shares the OneShot125 branch). -/
def oneshotFamily (p : MotorPwmProtocol) : Prop :=
  p = MotorPwmProtocol.pwmTypeOneshot125 ∨ p = MotorPwmProtocol.pwmTypeOneshot42 ∨
    p = MotorPwmProtocol.pwmTypeMultishot ∨ p = MotorPwmProtocol.other

/-- Specification-side: the digital (Dshot) protocols. -/
def isDigitalProtocol (p : MotorPwmProtocol) : Prop :=
  p = MotorPwmProtocol.pwmTypeDshot150 ∨ p = MotorPwmProtocol.pwmTypeDshot300 ∨
    p = MotorPwmProtocol.pwmTypeDshot600

/-- Concrete port for witnesses and counterexamples. -/
def testPort (c : Option Nat) (p t : Nat) (w : Option PwmWriteFn) : PwmOutputPort :=
  { ccr := c, period := p, tim := t, pwmWritePtr := w, enabled := true }

/-- Pad a list of ports to the bank capacity with zero-initialised slots. -/
def padBank (l : List PwmOutputPort) : List PwmOutputPort :=
  l ++ List.replicate (8 - l.length) pwmOutputPortZero

/-- Concrete state for witnesses and counterexamples. -/
def testState (ms ss : List PwmOutputPort) : PwmState :=
  { motors := padBank ms
    servos := padBank ss
    pwmCompleteWritePtr := some PwmCompleteFn.oneshot
    pwmMotorsEnabled := true }

/-- Concrete state for the shutdown witness: gate disabled, motor 0 with a
handle and no bound write function, motor 1 with a NULL handle. -/
def wsShutdown : PwmState :=
  pwmDisableMotors (testState [testPort (some 5) 0 1 none, testPort none 0 2 none] [])

/-- Concrete state for the completion witnesses: four configured motors, two
on timer 1 and two on timer 2 (the spec's own conformance configuration). -/
def wsComplete : PwmState :=
  testState [testPort (some 7) 1 1 none, testPort (some 8) 1 1 none,
    testPort (some 9) 1 2 none, testPort (some 3) 1 2 none] []

/-- Concrete state for the write-path witnesses: motor 0 configured for
OneShot125 with period 1000 on timer 1. -/
def wsWrite : PwmState :=
  testState [testPort (some 3) 1000 1 (some PwmWriteFn.oneshot125)] []

theorem u16_natCast (n : Nat) (h : n < 65536) : u16 (n : Int) = n := by
  unfold u16
  rw [Int.emod_eq_of_lt (by positivity) (by exact_mod_cast h)]
  simp

theorem u16_toNat {x : Int} (h0 : 0 ≤ x) (h1 : x < 65536) : u16 x = x.toNat := by
  unfold u16
  rw [Int.emod_eq_of_lt h0 h1]

theorem getD_set_self {α : Type} (l : List α) (i : Nat) (a d : α) (h : i < l.length) :
    (l.set i a).getD i d = a := by
  rw [List.getD_eq_getElem?_getD, List.getElem?_set_self h]
  rfl

theorem getD_set_ne {α : Type} (l : List α) {i j : Nat} (a d : α) (h : i ≠ j) :
    (l.set i a).getD j d = l.getD j d := by
  rw [List.getD_eq_getElem?_getD, List.getElem?_set_ne h, ← List.getD_eq_getElem?_getD]

theorem getD_of_getElem? {α : Type} {l : List α} {i : Nat} {a : α} (d : α)
    (h : l[i]? = some a) : l.getD i d = a := by
  rw [List.getD_eq_getElem?_getD, h]
  rfl

theorem storeMotorCompare_eq (s : PwmState) (index : Nat) (x : Int) (port : PwmOutputPort)
    (hport : s.motors[index]? = some port) (hccr : port.ccr.isSome) :
    storeMotorCompare s index x =
      some { s with motors := s.motors.set index { port with ccr := some (u16 x) } } := by
  obtain ⟨w, hw⟩ := Option.isSome_iff_exists.mp hccr
  simp only [storeMotorCompare, hport, hw]

theorem motorAt_of_getElem? {s : PwmState} {index : Nat} {port : PwmOutputPort}
    (hport : s.motors[index]? = some port) : motorAt s index = port :=
  getD_of_getElem? pwmOutputPortZero hport

/-- **C2 (counterexample)** The claim's literal case is wrong on the code:
with value 1500 and period 1000 the brushed encoder stores
`(1500 − 1000) · 1000 / 1000 = 500` into the compare register, not 250. -/
theorem pwmWriteBrushed_literal_counterexample :
    pwmWriteBrushed (testState [testPort (some 0) 1000 1 (some PwmWriteFn.brushed)] []) 0 1500 =
      some (testState [testPort (some 500) 1000 1 (some PwmWriteFn.brushed)] []) ∧
    (500 : Nat) ≠ 250 :=
  ⟨rfl, by decide⟩

/-- **C2 (amended)** The brushed encoder computes
`compare = (value − 1000) · period / 1000` (integer division); in particular,
for value 1500 and port period 1000 the value stored into the compare
register is 500. -/
theorem pwmWriteBrushed_formula (s : PwmState) (index value : Nat) (port : PwmOutputPort)
    (hport : s.motors[index]? = some port) (hccr : port.ccr.isSome)
    (h1 : 1000 ≤ value) (h2 : value ≤ 2000) (hper : port.period ≤ 65535) :
    pwmWriteBrushed s index value =
      some { s with motors :=
        s.motors.set index ({ port with ccr := some ((value - 1000) * port.period / 1000) }) } := by
  have hcast : (((value : Int) - 1000) * (port.period : Int)) =
      (((value - 1000) * port.period : Nat) : Int) := by
    push_cast [Nat.cast_sub h1]
    ring
  have htd : Int.tdiv (((value : Int) - 1000) * (port.period : Int)) 1000 =
      (((value - 1000) * port.period / 1000 : Nat) : Int) := by
    rw [hcast]
    exact_mod_cast (Int.ofNat_tdiv ((value - 1000) * port.period) 1000).symm
  have hb : (value - 1000) * port.period / 1000 < 65536 := by
    have hmul : (value - 1000) * port.period ≤ 1000 * port.period :=
      Nat.mul_le_mul_right _ (by omega)
    have := Nat.div_le_div_right (c := 1000) hmul
    have h1000 : 1000 * port.period / 1000 = port.period := by
      rw [Nat.mul_div_cancel_left _ (by norm_num)]
    omega
  rw [pwmWriteBrushed, motorAt_of_getElem? hport,
    storeMotorCompare_eq s index _ port hport hccr, htd, u16_natCast _ hb]

/-- Witness for C2's amended theorem at the claim's literal input: value 1500
on a port with period 1000 stores 500. -/
theorem pwmWriteBrushed_formula_witness :
    pwmWriteBrushed (testState [testPort (some 0) 1000 1 (some PwmWriteFn.brushed)] []) 0 1500 =
      some { testState [testPort (some 0) 1000 1 (some PwmWriteFn.brushed)] [] with
        motors := (testState [testPort (some 0) 1000 1 (some PwmWriteFn.brushed)] []).motors.set 0
          ({ testPort (some 0) 1000 1 (some PwmWriteFn.brushed) with
              ccr := some ((1500 - 1000) * 1000 / 1000) }) } :=
  pwmWriteBrushed_formula _ 0 1500 (testPort (some 0) 1000 1 (some PwmWriteFn.brushed))
    (by decide) (by decide) (by decide) (by decide) (by decide)

/-- **C3 (counterexample)** Servo writes are not gated by the global enable
flag: after `pwmDisableMotors`, `pwmWriteServo(0, 1200)` still overwrites
servo 0's compare register (500 becomes 1200). -/
theorem pwmWriteServo_gate_counterexample :
    pwmWriteServo (pwmDisableMotors (testState [] [testPort (some 500) 0 0 none])) 0 1200 =
      some { testState [] [testPort (some 1200) 0 0 none] with pwmMotorsEnabled := false } ∧
    (1200 : Nat) ≠ 500 :=
  ⟨rfl, by decide⟩

/-- **C3 (amended)** The global enable flag gates per-motor writes only;
`pwmWriteServo` never consults it: for every servo index in range whose
handle is non-NULL, a `writeServo(i, v)` issued after `disableMotors()`
still stores `v` into servo `i`'s compare register. -/
theorem pwmWriteServo_ignores_gate (s : PwmState) (index value : Nat) (port : PwmOutputPort)
    (hidx : index < MAX_SUPPORTED_SERVOS) (hport : s.servos[index]? = some port)
    (hccr : port.ccr.isSome) :
    pwmWriteServo (pwmDisableMotors s) index value =
      some { s with
        servos := s.servos.set index { port with ccr := some (u16 value) },
        pwmMotorsEnabled := false } := by
  obtain ⟨w, hw⟩ := Option.isSome_iff_exists.mp hccr
  unfold pwmWriteServo pwmDisableMotors
  simp only [hport, hw, if_pos hidx]

theorem getElem?_eq_getD {α : Type} (l : List α) (i : Nat) (d : α) (h : i < l.length) :
    l[i]? = some (l.getD i d) := by
  rw [List.getElem?_eq_getElem h, List.getD_eq_getElem?_getD, List.getElem?_eq_getElem h]
  rfl

theorem pwmShutdownAux_spec (s : PwmState) :
    ∀ n, n ≤ s.motors.length →
    ∃ s1, pwmShutdownAux s n = some s1 ∧
      s1.motors.length = s.motors.length ∧
      s1.servos = s.servos ∧
      s1.pwmCompleteWritePtr = s.pwmCompleteWritePtr ∧
      s1.pwmMotorsEnabled = s.pwmMotorsEnabled ∧
      (∀ i, i < n →
        (motorAt s1 i).ccr = Option.map (fun _ => 0) (motorAt s i).ccr ∧
        (motorAt s1 i).period = (motorAt s i).period ∧
        (motorAt s1 i).tim = (motorAt s i).tim ∧
        (motorAt s1 i).pwmWritePtr = (motorAt s i).pwmWritePtr ∧
        (motorAt s1 i).enabled = (motorAt s i).enabled) ∧
      (∀ i, n ≤ i → motorAt s1 i = motorAt s i) := by
  intro n
  induction n with
  | zero =>
    intro _
    exact ⟨s, rfl, rfl, rfl, rfl, rfl, fun i hi => absurd hi (Nat.not_lt_zero i),
      fun i _ => rfl⟩
  | succ n ih =>
    intro h
    obtain ⟨s1, hs1, hlen1, hsrv, hptr, hen, hlt, hge⟩ := ih (by omega)
    have hn : n < s.motors.length := by omega
    have hn1 : n < s1.motors.length := by rw [hlen1]; exact hn
    have hget : s1.motors[n]? = some (motorAt s1 n) :=
      getElem?_eq_getD s1.motors n pwmOutputPortZero hn1
    have hms : motorAt s1 n = motorAt s n := hge n le_rfl
    cases hc : (motorAt s n).ccr with
    | none =>
      refine ⟨s1, ?_, hlen1, hsrv, hptr, hen, ?_, fun i hi => hge i (by omega)⟩
      · simp only [pwmShutdownAux, hs1, hget, hms, hc]
      · intro i hi
        rcases Nat.lt_succ_iff_lt_or_eq.mp hi with hi' | hi'
        · exact hlt i hi'
        · subst hi'
          rw [hms, hc]
          exact ⟨rfl, rfl, rfl, rfl, rfl⟩
    | some w =>
      refine ⟨{ s1 with motors := s1.motors.set n ({ motorAt s1 n with ccr := some 0 }) },
        ?_, ?_, hsrv, hptr, hen, ?_, ?_⟩
      · simp only [pwmShutdownAux, hs1, hget, hms, hc]
      · simp [hlen1]
      · intro i hi
        rcases Nat.lt_succ_iff_lt_or_eq.mp hi with hi' | hi'
        · have hne : motorAt { s1 with motors := s1.motors.set n ({ motorAt s1 n with ccr := some 0 }) } i
              = motorAt s1 i := getD_set_ne s1.motors _ _ (by omega)
          rw [hne]
          exact hlt i hi'
        · subst hi'
          have hsel : motorAt { s1 with motors := s1.motors.set i ({ motorAt s1 i with ccr := some 0 }) } i
              = { motorAt s1 i with ccr := some 0 } := getD_set_self s1.motors i _ _ hn1
          rw [hsel, hms, hc]
          exact ⟨rfl, rfl, rfl, rfl, rfl⟩
      · intro i hi
        have hne : motorAt { s1 with motors := s1.motors.set n ({ motorAt s1 n with ccr := some 0 }) } i
            = motorAt s1 i := getD_set_ne s1.motors _ _ (by omega)
        rw [hne]
        exact hge i (by omega)

/-- **C5** For every motor count `n ≤ capacity` and every state of the global
enable gate, `pwmShutdownPulsesForAllMotors(n)` sets the compare register of
every configured motor `0 .. n-1` to 0 (unconfigured handles stay NULL),
leaves the gate and all further ports untouched, and consults neither the
gate nor the per-protocol write path (no hypothesis about either is
needed). -/
theorem pwmShutdownPulsesForAllMotors_spec (s : PwmState) (n : Nat)
    (hlen : s.motors.length = MAX_SUPPORTED_MOTORS) (hn : n ≤ MAX_SUPPORTED_MOTORS) :
    ∃ s1, pwmShutdownPulsesForAllMotors s n = some s1 ∧
      (∀ i, i < n → (motorAt s1 i).ccr = Option.map (fun _ => 0) (motorAt s i).ccr) ∧
      (∀ i, i < n → (motorAt s i).ccr.isSome → (motorAt s1 i).ccr = some 0) ∧
      s1.pwmMotorsEnabled = s.pwmMotorsEnabled ∧
      (∀ i, n ≤ i → motorAt s1 i = motorAt s i) := by
  obtain ⟨s1, hs1, _, _, _, hen, hlt, hge⟩ := pwmShutdownAux_spec s n (by omega)
  refine ⟨s1, hs1, fun i hi => (hlt i hi).1, ?_, hen, hge⟩
  intro i hi hsome
  obtain ⟨w, hw⟩ := Option.isSome_iff_exists.mp hsome
  rw [(hlt i hi).1, hw]
  rfl

/-- Witness for C5 at a concrete state with the enable gate cleared and no
bound write functions: motor 0's register is zeroed, motor 1's NULL handle
stays NULL, ports 2 and up are untouched. -/
theorem pwmShutdownPulsesForAllMotors_spec_witness :
    wsShutdown.motors.length = MAX_SUPPORTED_MOTORS ∧ 2 ≤ MAX_SUPPORTED_MOTORS ∧
    (∃ s1, pwmShutdownPulsesForAllMotors wsShutdown 2 = some s1 ∧
      (∀ i, i < 2 → (motorAt s1 i).ccr = Option.map (fun _ => 0) (motorAt wsShutdown i).ccr) ∧
      (∀ i, i < 2 → (motorAt wsShutdown i).ccr.isSome → (motorAt s1 i).ccr = some 0) ∧
      s1.pwmMotorsEnabled = wsShutdown.pwmMotorsEnabled ∧
      (∀ i, 2 ≤ i → motorAt s1 i = motorAt wsShutdown i)) :=
  ⟨by decide, by decide, pwmShutdownPulsesForAllMotors_spec wsShutdown 2 (by decide) (by decide)⟩

theorem pwmShutdownAux_length (s : PwmState) :
    ∀ n s1, pwmShutdownAux s n = some s1 → s1.motors.length = s.motors.length := by
  intro n
  induction n with
  | zero =>
    intro s1 h
    cases h
    rfl
  | succ n ih =>
    intro s1 h
    unfold pwmShutdownAux at h
    cases haux : pwmShutdownAux s n with
    | none => exact Option.noConfusion (haux ▸ h)
    | some s0 =>
      simp only [haux] at h
      cases hget : s0.motors[n]? with
      | none =>
        simp only [hget] at h
        exact Option.noConfusion h
      | some port =>
        simp only [hget] at h
        cases hc : port.ccr with
        | none =>
          simp only [hc] at h
          cases h
          exact ih _ haux
        | some w =>
          simp only [hc] at h
          cases h
          simpa using ih s0 haux

theorem pwmShutdownAux_isSome_iff (s : PwmState) (n : Nat) :
    (pwmShutdownAux s n).isSome ↔ n ≤ s.motors.length := by
  constructor
  · induction n with
    | zero => intro _; omega
    | succ n ih =>
      intro h
      obtain ⟨s1, hs1⟩ := Option.isSome_iff_exists.mp h
      unfold pwmShutdownAux at hs1
      cases haux : pwmShutdownAux s n with
      | none => exact Option.noConfusion (haux ▸ hs1)
      | some s0 =>
        simp only [haux] at hs1
        cases hget : s0.motors[n]? with
        | none =>
          simp only [hget] at hs1
          exact Option.noConfusion hs1
        | some port =>
          have hlt : n < s0.motors.length := by
            by_contra hge
            rw [List.getElem?_eq_none (by omega)] at hget
            cases hget
          have := pwmShutdownAux_length s n s0 haux
          omega
  · intro h
    obtain ⟨s1, hs1, _⟩ := pwmShutdownAux_spec s n h
    rw [hs1]
    rfl

theorem pwmCompleteOneshotAux_length (s : PwmState) :
    ∀ n s1 evs, pwmCompleteOneshotAux s n = some (s1, evs) →
      s1.motors.length = s.motors.length := by
  intro n
  induction n with
  | zero =>
    intro s1 evs h
    cases h
    rfl
  | succ n ih =>
    intro s1 evs h
    unfold pwmCompleteOneshotAux at h
    cases haux : pwmCompleteOneshotAux s n with
    | none => exact Option.noConfusion (haux ▸ h)
    | some p =>
      obtain ⟨s0, evs0⟩ := p
      simp only [haux] at h
      cases hget : s0.motors[n]? with
      | none =>
        simp only [hget] at h
        exact Option.noConfusion h
      | some port =>
        simp only [hget] at h
        cases hc : port.ccr with
        | none =>
          simp only [hc] at h
          exact Option.noConfusion h
        | some w =>
          simp only [hc] at h
          cases h
          simpa using ih s0 evs0 haux

theorem pwmCompleteOneshotAux_isSome_le (s : PwmState) (n : Nat)
    (h : (pwmCompleteOneshotAux s n).isSome) : n ≤ s.motors.length := by
  induction n with
  | zero => omega
  | succ n ih =>
    obtain ⟨p, hp⟩ := Option.isSome_iff_exists.mp h
    unfold pwmCompleteOneshotAux at hp
    cases haux : pwmCompleteOneshotAux s n with
    | none => exact Option.noConfusion (haux ▸ hp)
    | some q =>
      obtain ⟨s0, evs0⟩ := q
      simp only [haux] at hp
      cases hget : s0.motors[n]? with
      | none =>
        simp only [hget] at hp
        exact Option.noConfusion hp
      | some port =>
        have hlt : n < s0.motors.length := by
          by_contra hge
          rw [List.getElem?_eq_none (by omega)] at hget
          cases hget
        have := pwmCompleteOneshotAux_length s n s0 evs0 haux
        omega

theorem specForcedOverflows_zero (s : PwmState) : specForcedOverflows s 0 = [] := by
  simp [specForcedOverflows, specForcedOverflowIndexes]

theorem specForcedOverflows_succ (s : PwmState) (n : Nat) :
    specForcedOverflows s (n + 1) =
      specForcedOverflows s n ++
        (if ∀ j < n, (motorAt s j).tim ≠ (motorAt s n).tim
         then [(motorAt s n).tim] else []) := by
  unfold specForcedOverflows specForcedOverflowIndexes
  rw [List.range_succ, List.filter_append, List.map_append]
  congr 1
  by_cases h : ∀ j < n, (motorAt s j).tim ≠ (motorAt s n).tim
  · have hd : decide (∀ j < n, (motorAt s j).tim ≠ (motorAt s n).tim) = true :=
      decide_eq_true h
    rw [if_pos h]
    simp [List.filter, hd]
  · have hd : decide (∀ j < n, (motorAt s j).tim ≠ (motorAt s n).tim) = false :=
      decide_eq_false h
    rw [if_neg h]
    simp [List.filter, hd]

theorem specForcedOverflows_count (s : PwmState) :
    ∀ n t, (specForcedOverflows s n).count t =
      if timAppears s n t then 1 else 0 := by
  intro n
  induction n with
  | zero =>
    intro t
    have h0 : ¬ timAppears s 0 t := by rintro ⟨i, hi, _⟩; omega
    rw [specForcedOverflows_zero, if_neg h0, List.count_nil]
  | succ n ih =>
    intro t
    rw [specForcedOverflows_succ, List.count_append, ih t]
    by_cases hof : ∀ j < n, (motorAt s j).tim ≠ (motorAt s n).tim
    · rw [if_pos hof]
      by_cases ht : (motorAt s n).tim = t
      · have h1 : ¬ timAppears s n t := by
          rintro ⟨i, hi, he⟩
          exact hof i hi (he.trans ht.symm)
        have h2 : timAppears s (n + 1) t := ⟨n, by omega, ht⟩
        have hc1 : List.count t [(motorAt s n).tim] = 1 := by
          rw [ht]
          simp
        rw [if_neg h1, if_pos h2, hc1]
      · have h0 : List.count t [(motorAt s n).tim] = 0 := by
          apply List.count_eq_zero_of_not_mem
          simp only [List.mem_singleton]
          exact fun h => ht h.symm
        by_cases hex : timAppears s n t
        · have h2 : timAppears s (n + 1) t := by
            obtain ⟨i, hi, he⟩ := hex
            exact ⟨i, by omega, he⟩
          rw [if_pos hex, if_pos h2, h0]
        · have h2 : ¬ timAppears s (n + 1) t := by
            rintro ⟨i, hi, he⟩
            rcases Nat.lt_succ_iff_lt_or_eq.mp hi with hi' | hi'
            · exact hex ⟨i, hi', he⟩
            · subst hi'; exact ht he
          rw [if_neg hex, if_neg h2, h0]
    · rw [if_neg hof, List.count_nil]
      by_cases hex : timAppears s n t
      · have h2 : timAppears s (n + 1) t := by
          obtain ⟨i, hi, he⟩ := hex
          exact ⟨i, by omega, he⟩
        rw [if_pos hex, if_pos h2]
      · have h2 : ¬ timAppears s (n + 1) t := by
          rintro ⟨i, hi, he⟩
          rcases Nat.lt_succ_iff_lt_or_eq.mp hi with hi' | hi'
          · exact hex ⟨i, hi', he⟩
          · subst hi'
            push_neg at hof
            obtain ⟨j, hj, hje⟩ := hof
            exact hex ⟨j, hj, hje.trans he⟩
        rw [if_neg hex, if_neg h2]

theorem pwmCompleteOneshotAux_spec (s : PwmState) :
    ∀ n, n ≤ s.motors.length → (∀ i, i < n → (motorAt s i).ccr.isSome) →
    ∃ s1 evs, pwmCompleteOneshotAux s n = some (s1, evs) ∧
      s1.motors.length = s.motors.length ∧
      s1.servos = s.servos ∧
      s1.pwmCompleteWritePtr = s.pwmCompleteWritePtr ∧
      s1.pwmMotorsEnabled = s.pwmMotorsEnabled ∧
      (∀ i, i < n →
        (motorAt s1 i).ccr = some 0 ∧
        (motorAt s1 i).period = (motorAt s i).period ∧
        (motorAt s1 i).tim = (motorAt s i).tim ∧
        (motorAt s1 i).pwmWritePtr = (motorAt s i).pwmWritePtr ∧
        (motorAt s1 i).enabled = (motorAt s i).enabled) ∧
      (∀ i, n ≤ i → motorAt s1 i = motorAt s i) ∧
      evs = specForcedOverflows s n := by
  intro n
  induction n with
  | zero =>
    intro _ _
    exact ⟨s, [], rfl, rfl, rfl, rfl, rfl, fun i hi => absurd hi (Nat.not_lt_zero i),
      fun i _ => rfl, (specForcedOverflows_zero s).symm⟩
  | succ n ih =>
    intro h hccr
    obtain ⟨s1, evs, hs1, hlen1, hsrv, hptr, hen, hlt, hge, hevs⟩ :=
      ih (by omega) (fun i hi => hccr i (by omega))
    have hn : n < s.motors.length := by omega
    have hn1 : n < s1.motors.length := by rw [hlen1]; exact hn
    have hget : s1.motors[n]? = some (motorAt s1 n) :=
      getElem?_eq_getD s1.motors n pwmOutputPortZero hn1
    have hms : motorAt s1 n = motorAt s n := hge n le_rfl
    obtain ⟨w, hw⟩ := Option.isSome_iff_exists.mp (hccr n (by omega))
    have htim : ∀ j, j < n → (motorAt s1 j).tim = (motorAt s j).tim :=
      fun j hj => (hlt j hj).2.2.1
    have hiff : (∃ j < n, (motorAt s1 j).tim = (motorAt s n).tim) ↔
        (∃ j < n, (motorAt s j).tim = (motorAt s n).tim) := by
      refine exists_congr fun j => and_congr_right fun hj => ?_
      rw [htim j hj]
    have hdec : decide (∃ j < n, (motorAt s1 j).tim = (motorAt s n).tim) =
        decide (∃ j < n, (motorAt s j).tim = (motorAt s n).tim) :=
      decide_eq_decide.mpr hiff
    refine ⟨{ s1 with motors := s1.motors.set n ({ motorAt s n with ccr := some 0 }) },
      (if decide (∃ j < n, (motorAt s j).tim = (motorAt s n).tim) then evs
       else evs ++ [(motorAt s n).tim]),
      ?_, ?_, hsrv, hptr, hen, ?_, ?_, ?_⟩
    · simp only [pwmCompleteOneshotAux, hs1, hget, hms, hdec, hw]
    · simp [hlen1]
    · intro i hi
      rcases Nat.lt_succ_iff_lt_or_eq.mp hi with hi' | hi'
      · have hne : motorAt { s1 with motors := s1.motors.set n ({ motorAt s n with ccr := some 0 }) } i
            = motorAt s1 i := getD_set_ne s1.motors _ _ (by omega)
        rw [hne]
        exact hlt i hi'
      · subst hi'
        have hsel : motorAt { s1 with motors := s1.motors.set i ({ motorAt s i with ccr := some 0 }) } i
            = { motorAt s i with ccr := some 0 } := getD_set_self s1.motors i _ _ hn1
        rw [hsel]
        exact ⟨rfl, rfl, rfl, rfl, rfl⟩
    · intro i hi
      have hne : motorAt { s1 with motors := s1.motors.set n ({ motorAt s n with ccr := some 0 }) } i
          = motorAt s1 i := getD_set_ne s1.motors _ _ (by omega)
      rw [hne]
      exact hge i (by omega)
    · rw [specForcedOverflows_succ, hevs]
      by_cases hex : ∃ j < n, (motorAt s j).tim = (motorAt s n).tim
      · rw [decide_eq_true hex, if_pos rfl]
        have hnall : ¬ ∀ j < n, (motorAt s j).tim ≠ (motorAt s n).tim := by
          obtain ⟨j, hj, he⟩ := hex
          exact fun hall => hall j hj he
        rw [if_neg hnall, List.append_nil]
      · rw [decide_eq_false hex]
        have hall : ∀ j < n, (motorAt s j).tim ≠ (motorAt s n).tim := by
          intro j hj he
          exact hex ⟨j, hj, he⟩
        rw [if_neg (by simp), if_pos hall]

/-- **C1** For every motor count `n` within the bank capacity and every
assignment of timer identities to configured motor ports `0 .. n-1`, one call
to `pwmCompleteOneshotMotorUpdate(n)` issues exactly one forced overflow per
distinct timer identity appearing among those ports — each issued at the
first index carrying that timer, in scan order — and afterwards every port's
compare register equals 0. -/
theorem pwmCompleteOneshotMotorUpdate_spec (s : PwmState) (n : Nat)
    (hlen : s.motors.length = MAX_SUPPORTED_MOTORS) (hn : n ≤ MAX_SUPPORTED_MOTORS)
    (hccr : ∀ i, i < n → (motorAt s i).ccr.isSome) :
    ∃ s1 evs, pwmCompleteOneshotMotorUpdate s n = some (s1, evs) ∧
      evs = specForcedOverflows s n ∧
      (∀ t, evs.count t = if timAppears s n t then 1 else 0) ∧
      (∀ i, i < n → (motorAt s1 i).ccr = some 0) := by
  obtain ⟨s1, evs, h1, _, _, _, _, hlt, _, hevs⟩ :=
    pwmCompleteOneshotAux_spec s n (by omega) hccr
  refine ⟨s1, evs, h1, hevs, ?_, fun i hi => (hlt i hi).1⟩
  intro t
  rw [hevs]
  exact specForcedOverflows_count s n t

/-- Witness for C1 on the spec's own conformance configuration: four motors,
two on timer 1 and two on timer 2. -/
theorem pwmCompleteOneshotMotorUpdate_spec_witness :
    wsComplete.motors.length = MAX_SUPPORTED_MOTORS ∧ 4 ≤ MAX_SUPPORTED_MOTORS ∧
    (∀ i, i < 4 → (motorAt wsComplete i).ccr.isSome) ∧
    (∃ s1, ∃ evs : List Nat, pwmCompleteOneshotMotorUpdate wsComplete 4 = some (s1, evs) ∧
      evs = specForcedOverflows wsComplete 4 ∧
      (∀ t : Nat, evs.count t = if timAppears wsComplete 4 t then 1 else 0) ∧
      (∀ i, i < 4 → (motorAt s1 i).ccr = some 0)) :=
  ⟨by decide, by decide, by decide,
    pwmCompleteOneshotMotorUpdate_spec wsComplete 4 (by decide) (by decide) (by decide)⟩

/-- **C10** Neither `pwmShutdownPulsesForAllMotors` nor
`pwmCompleteOneshotMotorUpdate` checks its count against the bank capacity:
both walk every index `0 .. count-1`, so the shutdown walk succeeds exactly
when `count ≤ MAX_SUPPORTED_MOTORS`, the completion walk can succeed only
under that precondition (and does succeed under it when every walked handle
is non-NULL), and for any count beyond the capacity both hit the
out-of-bounds branch of the embedding. -/
theorem motorCount_capacity_bounds (s : PwmState) (n : Nat)
    (hlen : s.motors.length = MAX_SUPPORTED_MOTORS) :
    ((pwmShutdownPulsesForAllMotors s n).isSome ↔ n ≤ MAX_SUPPORTED_MOTORS) ∧
    ((pwmCompleteOneshotMotorUpdate s n).isSome → n ≤ MAX_SUPPORTED_MOTORS) ∧
    ((∀ i, i < n → (motorAt s i).ccr.isSome) → n ≤ MAX_SUPPORTED_MOTORS →
      (pwmCompleteOneshotMotorUpdate s n).isSome) ∧
    (MAX_SUPPORTED_MOTORS < n →
      pwmShutdownPulsesForAllMotors s n = none ∧ pwmCompleteOneshotMotorUpdate s n = none) := by
  have hsh0 := pwmShutdownAux_isSome_iff s n
  rw [hlen] at hsh0
  have hsh : (pwmShutdownPulsesForAllMotors s n).isSome ↔ n ≤ MAX_SUPPORTED_MOTORS := hsh0
  refine ⟨hsh, ?_, ?_, ?_⟩
  · intro h
    have := pwmCompleteOneshotAux_isSome_le s n h
    omega
  · intro hccr hn
    obtain ⟨s1, evs, h1, _⟩ := pwmCompleteOneshotAux_spec s n (by omega) hccr
    have : pwmCompleteOneshotMotorUpdate s n = some (s1, evs) := h1
    rw [this]
    rfl
  · intro hgt
    constructor
    · have hno : ¬ (pwmShutdownPulsesForAllMotors s n).isSome = true := by
        rw [hsh]
        omega
      exact Option.not_isSome_iff_eq_none.mp hno
    · have hno : ¬ (pwmCompleteOneshotMotorUpdate s n).isSome = true := by
        intro h
        have := pwmCompleteOneshotAux_isSome_le s n h
        omega
      exact Option.not_isSome_iff_eq_none.mp hno

/-- Witness for C10: with the four-motor bank, count 9 exceeds the capacity
(8) and both walks return the out-of-bounds `none`; count 4 is in bounds. -/
theorem motorCount_capacity_bounds_witness :
    wsComplete.motors.length = MAX_SUPPORTED_MOTORS ∧
    (((pwmShutdownPulsesForAllMotors wsComplete 9).isSome ↔ 9 ≤ MAX_SUPPORTED_MOTORS) ∧
      ((pwmCompleteOneshotMotorUpdate wsComplete 9).isSome → 9 ≤ MAX_SUPPORTED_MOTORS) ∧
      ((∀ i, i < 9 → (motorAt wsComplete i).ccr.isSome) → 9 ≤ MAX_SUPPORTED_MOTORS →
        (pwmCompleteOneshotMotorUpdate wsComplete 9).isSome) ∧
      (MAX_SUPPORTED_MOTORS < 9 →
        pwmShutdownPulsesForAllMotors wsComplete 9 = none ∧
        pwmCompleteOneshotMotorUpdate wsComplete 9 = none)) :=
  ⟨by decide, motorCount_capacity_bounds wsComplete 9 (by decide)⟩

/-- Witness for C3's amended theorem: concrete disabled state, servo 0 with
register 500, write 1200 → register 1200. -/
theorem pwmWriteServo_ignores_gate_witness :
    pwmWriteServo (pwmDisableMotors (testState [] [testPort (some 500) 0 0 none])) 0 1200 =
      some { testState [] [testPort (some 500) 0 0 none] with
        servos := (testState [] [testPort (some 500) 0 0 none]).servos.set 0
          ({ testPort (some 500) 0 0 none with ccr := some (u16 1200) }),
        pwmMotorsEnabled := false } :=
  pwmWriteServo_ignores_gate _ 0 1200 (testPort (some 500) 0 0 none)
    (by decide) (by decide) (by decide)

theorem lt_length_of_getElem? {α : Type} {l : List α} {i : Nat} {a : α}
    (h : l[i]? = some a) : i < l.length := by
  by_contra hge
  rw [List.getElem?_eq_none (by omega)] at h
  cases h

/-- **C4** `pwmWriteMotor(index, value)` is a perfect no-op (the whole state
is returned unchanged) when the index reaches the motor capacity, when the
global enable gate is cleared, when the port has no bound write function
(disabled port), or when the bound write function is the external digital
one; otherwise it stores the protocol-encoded value into port `index`'s
compare register and changes nothing else. -/
theorem pwmWriteMotor_spec (s : PwmState) (index value : Nat) :
    (MAX_SUPPORTED_MOTORS ≤ index → pwmWriteMotor s index value = some s) ∧
    (s.pwmMotorsEnabled = false → pwmWriteMotor s index value = some s) ∧
    (∀ port, s.motors[index]? = some port → port.pwmWritePtr = none →
      pwmWriteMotor s index value = some s) ∧
    (∀ port, s.motors[index]? = some port →
      port.pwmWritePtr = some PwmWriteFn.digital →
      pwmWriteMotor s index value = some s) ∧
    (∀ port fn, index < MAX_SUPPORTED_MOTORS → s.pwmMotorsEnabled = true →
      s.motors[index]? = some port → port.pwmWritePtr = some fn →
      fn ≠ PwmWriteFn.digital → port.ccr.isSome →
      pwmWriteMotor s index value =
        some { s with motors :=
          s.motors.set index ({ port with
            ccr := some (u16 (encodeAnalog fn port.period value)) }) }) := by
  refine ⟨?_, ?_, ?_, ?_, ?_⟩
  · intro hge
    rw [pwmWriteMotor, if_neg (by omega)]
  · intro hdis
    rw [pwmWriteMotor, if_neg (by simp [hdis])]
  · intro port hport hwp
    by_cases hc : index < MAX_SUPPORTED_MOTORS ∧ s.pwmMotorsEnabled
    · simp only [pwmWriteMotor, if_pos hc, hport, hwp]
    · rw [pwmWriteMotor, if_neg hc]
  · intro port hport hwp
    by_cases hc : index < MAX_SUPPORTED_MOTORS ∧ s.pwmMotorsEnabled
    · simp only [pwmWriteMotor, if_pos hc, hport, hwp, pwmWriteCall]
    · rw [pwmWriteMotor, if_neg hc]
  · intro port fn hidx hen hport hwp hne hccr
    have hc : index < MAX_SUPPORTED_MOTORS ∧ s.pwmMotorsEnabled := ⟨hidx, hen⟩
    cases fn with
    | digital => exact absurd rfl hne
    | standard =>
      simp only [pwmWriteMotor, if_pos hc, hport, hwp, pwmWriteCall, pwmWriteStandard,
        storeMotorCompare_eq s index _ port hport hccr]
      rfl
    | brushed =>
      simp only [pwmWriteMotor, if_pos hc, hport, hwp, pwmWriteCall, pwmWriteBrushed,
        motorAt_of_getElem? hport, storeMotorCompare_eq s index _ port hport hccr]
      rfl
    | oneshot125 =>
      simp only [pwmWriteMotor, if_pos hc, hport, hwp, pwmWriteCall, pwmWriteOneShot125,
        storeMotorCompare_eq s index _ port hport hccr]
      rfl
    | oneshot42 =>
      simp only [pwmWriteMotor, if_pos hc, hport, hwp, pwmWriteCall, pwmWriteOneShot42,
        storeMotorCompare_eq s index _ port hport hccr]
      rfl
    | multishot =>
      simp only [pwmWriteMotor, if_pos hc, hport, hwp, pwmWriteCall, pwmWriteMultiShot,
        storeMotorCompare_eq s index _ port hport hccr]
      rfl

/-- Witness for C4 at concrete inputs: a disabled-gate write and an
out-of-range write change nothing; an enabled in-range OneShot125 write
stores the encoded value into motor 0's register only. -/
theorem pwmWriteMotor_spec_witness :
    (pwmWriteMotor (pwmDisableMotors wsWrite) 0 1500 = some (pwmDisableMotors wsWrite)) ∧
    (pwmWriteMotor wsWrite 9 1500 = some wsWrite) ∧
    (pwmWriteMotor wsWrite 0 1500 =
      some { wsWrite with motors :=
        wsWrite.motors.set 0 ({ testPort (some 3) 1000 1 (some PwmWriteFn.oneshot125) with
          ccr := some (u16 (encodeAnalog PwmWriteFn.oneshot125 1000 1500)) }) }) :=
  ⟨(pwmWriteMotor_spec (pwmDisableMotors wsWrite) 0 1500).2.1 rfl,
    (pwmWriteMotor_spec wsWrite 9 1500).1 (by decide),
    (pwmWriteMotor_spec wsWrite 0 1500).2.2.2.2
      (testPort (some 3) 1000 1 (some PwmWriteFn.oneshot125)) PwmWriteFn.oneshot125
      (by decide) (by decide) (by decide) (by decide) (by decide) (by decide)⟩

theorem lrintfQ_mul (a den : Int) (hden : 0 < den) : lrintfQ (a * den) den = a := by
  simp only [lrintfQ]
  rw [Int.mul_ediv_cancel _ (by omega), Int.mul_emod_left]
  rw [if_pos (by omega)]

theorem lrintfQ_mono_1000 {a b : Int} (h : a ≤ b) : lrintfQ a 1000 ≤ lrintfQ b 1000 := by
  simp only [lrintfQ]
  have ha := Int.ediv_add_emod a 1000
  have hb := Int.ediv_add_emod b 1000
  have ha0 : 0 ≤ a % 1000 := Int.emod_nonneg a (by norm_num)
  have ha1 : a % 1000 < 1000 := Int.emod_lt_of_pos a (by norm_num)
  have hb0 : 0 ≤ b % 1000 := Int.emod_nonneg b (by norm_num)
  have hb1 : b % 1000 < 1000 := Int.emod_lt_of_pos b (by norm_num)
  split_ifs <;> omega

theorem lrintfQ_1000_bounds (num : Int) :
    num / 1000 ≤ lrintfQ num 1000 ∧ lrintfQ num 1000 ≤ num / 1000 + 1 := by
  simp only [lrintfQ]
  have h := Int.ediv_add_emod num 1000
  have h0 : 0 ≤ num % 1000 := Int.emod_nonneg num (by norm_num)
  have h1 : num % 1000 < 1000 := Int.emod_lt_of_pos num (by norm_num)
  split_ifs <;> omega

theorem brushed_stored_val (p v : Nat) (h1 : 1000 ≤ v) (h2 : v ≤ 2000) (hp : p ≤ 65535) :
    u16 (Int.tdiv (((v : Int) - 1000) * (p : Int)) 1000) = (v - 1000) * p / 1000 := by
  have hcast : (((v : Int) - 1000) * (p : Int)) = (((v - 1000) * p : Nat) : Int) := by
    push_cast [Nat.cast_sub h1]
    ring
  have htd : Int.tdiv (((v : Int) - 1000) * (p : Int)) 1000 =
      (((v - 1000) * p / 1000 : Nat) : Int) := by
    rw [hcast]
    exact_mod_cast (Int.ofNat_tdiv ((v - 1000) * p) 1000).symm
  have hb : (v - 1000) * p / 1000 < 65536 := by
    have hmul : (v - 1000) * p ≤ 1000 * p := Nat.mul_le_mul_right _ (by omega)
    have := Nat.div_le_div_right (c := 1000) hmul
    have h1000 : 1000 * p / 1000 = p := by
      rw [Nat.mul_div_cancel_left _ (by norm_num)]
    omega
  rw [htd, u16_natCast _ hb]

/-- **C9** Every analog protocol encoder is monotone on the command domain:
for each of the five analog write functions and every `v1 < v2` within
`[1000, 2000]`, the compare value stored for `v1` is at most the one stored
for `v2`. -/
theorem analogEncoders_monotone (s : PwmState) (index v1 v2 : Nat) (port : PwmOutputPort)
    (hport : s.motors[index]? = some port) (hccr : port.ccr.isSome)
    (hper : port.period ≤ 65535)
    (h1 : 1000 ≤ v1) (hlt : v1 < v2) (h2 : v2 ≤ 2000) :
    ∀ fn, fn ≠ PwmWriteFn.digital →
      ∃ s1 s2 r1 r2,
        pwmWriteCall fn s index v1 = some s1 ∧
        pwmWriteCall fn s index v2 = some s2 ∧
        (motorAt s1 index).ccr = some r1 ∧
        (motorAt s2 index).ccr = some r2 ∧
        r1 ≤ r2 := by
  have hlen : index < s.motors.length := lt_length_of_getElem? hport
  have hstore : ∀ x : Int, storeMotorCompare s index x =
      some { s with motors := s.motors.set index ({ port with ccr := some (u16 x) }) } :=
    fun x => storeMotorCompare_eq s index x port hport hccr
  have hreg : ∀ x : Int,
      (motorAt { s with motors := s.motors.set index ({ port with ccr := some (u16 x) }) }
        index).ccr = some (u16 x) := by
    intro x
    show ((s.motors.set index _).getD index pwmOutputPortZero).ccr = _
    rw [getD_set_self s.motors index _ pwmOutputPortZero hlen]
  intro fn hne
  cases fn with
  | digital => exact absurd rfl hne
  | standard =>
    refine ⟨_, _, _, _, hstore (v1 : Int), hstore (v2 : Int), hreg _, hreg _, ?_⟩
    rw [u16_natCast v1 (by omega), u16_natCast v2 (by omega)]
    omega
  | brushed =>
    have hma : motorAt s index = port := motorAt_of_getElem? hport
    refine ⟨_, _, _, _, hstore _, hstore _, hreg _, hreg _, ?_⟩
    rw [hma, brushed_stored_val port.period v1 h1 (by omega) hper,
      brushed_stored_val port.period v2 (by omega) h2 hper]
    exact Nat.div_le_div_right (Nat.mul_le_mul_right _ (by omega))
  | oneshot125 =>
    refine ⟨_, _, _, _, hstore _, hstore _, hreg _, hreg _, ?_⟩
    have hc : ((ONESHOT125_TIMER_MHZ : Nat) : Int) = 8 := rfl
    rw [hc, lrintfQ_mul (v1 : Int) 8 (by norm_num), lrintfQ_mul (v2 : Int) 8 (by norm_num),
      u16_natCast v1 (by omega), u16_natCast v2 (by omega)]
    omega
  | oneshot42 =>
    refine ⟨_, _, _, _, hstore _, hstore _, hreg _, hreg _, ?_⟩
    have hc : ((ONESHOT42_TIMER_MHZ : Nat) : Int) = 24 := rfl
    rw [hc, lrintfQ_mul (v1 : Int) 24 (by norm_num), lrintfQ_mul (v2 : Int) 24 (by norm_num),
      u16_natCast v1 (by omega), u16_natCast v2 (by omega)]
    omega
  | multishot =>
    refine ⟨_, _, _, _, hstore _, hstore _, hreg _, hreg _, ?_⟩
    have hc1 : ((MULTISHOT_TIMER_MHZ : Nat) : Int) * 20 = 160 := rfl
    have hc2 : (1000 : Int) * ((MULTISHOT_5US_PW : Nat) : Int) = 40000 := rfl
    rw [hc1, hc2]
    have hd1 : (1000 : Int) ≤ (v1 : Int) := by exact_mod_cast h1
    have hd2 : ((v2 : Int)) ≤ 2000 := by exact_mod_cast h2
    have hdlt : (v1 : Int) ≤ (v2 : Int) := by exact_mod_cast Nat.le_of_lt hlt
    have hmono := lrintfQ_mono_1000
      (show ((v1 : Int) - 1000) * 160 + 40000 ≤ ((v2 : Int) - 1000) * 160 + 40000 by omega)
    have hb1 := lrintfQ_1000_bounds (((v1 : Int) - 1000) * 160 + 40000)
    have hb2 := lrintfQ_1000_bounds (((v2 : Int) - 1000) * 160 + 40000)
    rw [u16_toNat (by omega) (by omega), u16_toNat (by omega) (by omega)]
    exact Int.toNat_le_toNat hmono

theorem lrintfQ_eq_round (num den : Int) (hden : 0 < den)
    (htie : 2 * (num % den) ≠ den) :
    lrintfQ num den = round ((num : ℚ) / (den : ℚ)) := by
  obtain ⟨d, rfl⟩ : ∃ d : Nat, den = (d : Int) :=
    ⟨den.toNat, (Int.toNat_of_nonneg (le_of_lt hden)).symm⟩
  have hdz : ((d : Nat) : Int) ≠ 0 := by omega
  have hq := Int.ediv_add_emod num (d : Int)
  have hr0 : 0 ≤ num % (d : Int) := Int.emod_nonneg num hdz
  have hrd : num % (d : Int) < d := Int.emod_lt_of_pos num hden
  have hkey : round ((num : ℚ) / ((d : Int) : ℚ)) = (2 * num + d) / ((2 * d : Nat) : Int) := by
    rw [round_eq]
    have hdq : ((d : Nat) : ℚ) ≠ 0 := by exact_mod_cast hdz
    have hcast : (num : ℚ) / ((d : Int) : ℚ) + 1 / 2 =
        ((2 * num + d : Int) : ℚ) / ((2 * d : Nat) : ℚ) := by
      push_cast
      field_simp
      ring
    rw [hcast, Rat.floor_intCast_div_natCast]
  rw [hkey]
  have h2den : ((2 * d : Nat) : Int) = 2 * (d : Int) := by push_cast; ring
  have h1 : 2 * num + ((d : Nat) : Int) =
      (2 * (num % (d : Int)) + d) + (2 * (d : Int)) * (num / (d : Int)) := by
    nlinarith [hq]
  rw [h2den, h1, Int.add_mul_ediv_left _ _ (by omega : (2 : Int) * (d : Int) ≠ 0)]
  simp only [lrintfQ]
  rcases lt_trichotomy (2 * (num % (d : Int))) ((d : Nat) : Int) with hlt | heq | hgt
  · rw [if_pos hlt,
      Int.ediv_eq_zero_of_lt (a := 2 * (num % (d : Int)) + (d : Int))
        (b := 2 * (d : Int)) (by omega) (by omega)]
    omega
  · exact absurd heq htie
  · rw [if_neg (by omega), if_pos hgt]
    have hsplit : 2 * (num % (d : Int)) + ((d : Nat) : Int) =
        (2 * (num % (d : Int)) - d) + (2 * (d : Int)) * 1 := by ring
    rw [hsplit, Int.add_mul_ediv_left _ _ (by omega : (2 : Int) * (d : Int) ≠ 0),
      Int.ediv_eq_zero_of_lt (a := 2 * (num % (d : Int)) - (d : Int))
        (b := 2 * (d : Int)) (by omega) (by omega)]
    omega

/-- **C8** The oneshot-family encoders store exactly the round-to-nearest
results of the spec's formulas on the command domain — OneShot125:
`round(value·mhz/8)`, OneShot42: `round(value·mhz/24)`, Multishot:
`round((value−1000)·(mhz·20/1000) + mhz·5)` — and the literal conformance
cases hold: with mhz = 8, OneShot125 maps 1000 ↦ 1000 and 2000 ↦ 2000, and
Multishot maps 1000 ↦ 40 and 2000 ↦ 200. -/
theorem oneshotFamilyEncoders_spec (s : PwmState) (index value : Nat) (port : PwmOutputPort)
    (hport : s.motors[index]? = some port) (hccr : port.ccr.isSome)
    (h1 : 1000 ≤ value) (h2 : value ≤ 2000) :
    (pwmWriteOneShot125 s index value = some { s with motors := s.motors.set index ({ port with ccr := some ((round ((value * ONESHOT125_TIMER_MHZ : ℚ) / 8)).toNat) }) }) ∧
    (pwmWriteOneShot42 s index value = some { s with motors := s.motors.set index ({ port with ccr := some ((round ((value * ONESHOT42_TIMER_MHZ : ℚ) / 24)).toNat) }) }) ∧
    (pwmWriteMultiShot s index value = some { s with motors := s.motors.set index ({ port with ccr := some ((round (((value : ℚ) - 1000) * ((MULTISHOT_TIMER_MHZ : ℚ) * 20 / 1000) + (MULTISHOT_TIMER_MHZ : ℚ) * 5)).toNat) }) }) ∧
    round ((1000 * (8 : ℚ)) / 8) = 1000 ∧
    round ((2000 * (8 : ℚ)) / 8) = 2000 ∧
    round (((1000 : ℚ) - 1000) * ((8 : ℚ) * 20 / 1000) + (8 : ℚ) * 5) = 40 ∧
    round (((2000 : ℚ) - 1000) * ((8 : ℚ) * 20 / 1000) + (8 : ℚ) * 5) = 200 := by
  refine ⟨?_, ?_, ?_, ?_, ?_, ?_, ?_⟩
  · have hval : u16 (lrintfQ ((value : Int) * ((ONESHOT125_TIMER_MHZ : Nat) : Int)) 8) =
        (round ((value * ONESHOT125_TIMER_MHZ : ℚ) / 8)).toNat := by
      have hcI : ((ONESHOT125_TIMER_MHZ : Nat) : Int) = 8 := rfl
      have hcQ : ((ONESHOT125_TIMER_MHZ : Nat) : ℚ) = 8 := by
        norm_num [ONESHOT125_TIMER_MHZ]
      have harg : ((value : ℚ) * 8) / 8 = ((value : Nat) : ℚ) := by
        field_simp
      rw [hcI, hcQ, lrintfQ_mul (value : Int) 8 (by norm_num), harg, round_natCast,
        Int.toNat_natCast, u16_natCast value (by omega)]
    rw [pwmWriteOneShot125, storeMotorCompare_eq s index _ port hport hccr, hval]
  · have hval : u16 (lrintfQ ((value : Int) * ((ONESHOT42_TIMER_MHZ : Nat) : Int)) 24) =
        (round ((value * ONESHOT42_TIMER_MHZ : ℚ) / 24)).toNat := by
      have hcI : ((ONESHOT42_TIMER_MHZ : Nat) : Int) = 24 := rfl
      have hcQ : ((ONESHOT42_TIMER_MHZ : Nat) : ℚ) = 24 := by
        norm_num [ONESHOT42_TIMER_MHZ]
      have harg : ((value : ℚ) * 24) / 24 = ((value : Nat) : ℚ) := by
        field_simp
      rw [hcI, hcQ, lrintfQ_mul (value : Int) 24 (by norm_num), harg, round_natCast,
        Int.toNat_natCast, u16_natCast value (by omega)]
    rw [pwmWriteOneShot42, storeMotorCompare_eq s index _ port hport hccr, hval]
  · have hval : u16 (lrintfQ (((value : Int) - 1000) * (((MULTISHOT_TIMER_MHZ : Nat) : Int) * 20)
        + 1000 * ((MULTISHOT_5US_PW : Nat) : Int)) 1000) =
        (round (((value : ℚ) - 1000) * ((MULTISHOT_TIMER_MHZ : ℚ) * 20 / 1000)
          + (MULTISHOT_TIMER_MHZ : ℚ) * 5)).toNat := by
      have hcI1 : ((MULTISHOT_TIMER_MHZ : Nat) : Int) * 20 = 160 := rfl
      have hcI2 : (1000 : Int) * ((MULTISHOT_5US_PW : Nat) : Int) = 40000 := rfl
      rw [hcI1, hcI2]
      have htie : 2 * ((((value : Int) - 1000) * 160 + 40000) % 1000) ≠ 1000 := by
        omega
      have hbr := lrintfQ_eq_round (((value : Int) - 1000) * 160 + 40000) 1000
        (by norm_num) htie
      have harg : (((((value : Int) - 1000) * 160 + 40000 : Int)) : ℚ) / ((1000 : Int) : ℚ) =
          ((value : ℚ) - 1000) * (((MULTISHOT_TIMER_MHZ : Nat) : ℚ) * 20 / 1000)
            + ((MULTISHOT_TIMER_MHZ : Nat) : ℚ) * 5 := by
        have hcQ : ((MULTISHOT_TIMER_MHZ : Nat) : ℚ) = 8 := by
          norm_num [MULTISHOT_TIMER_MHZ]
        rw [hcQ]
        push_cast
        field_simp
        ring
      have hb := lrintfQ_1000_bounds (((value : Int) - 1000) * 160 + 40000)
      have hd1 : (1000 : Int) ≤ (value : Int) := by exact_mod_cast h1
      have hd2 : ((value : Int)) ≤ 2000 := by exact_mod_cast h2
      rw [u16_toNat (by omega) (by omega), hbr, harg]
    rw [pwmWriteMultiShot, storeMotorCompare_eq s index _ port hport hccr, hval]
  · have harg : (1000 * (8 : ℚ)) / 8 = ((1000 : Nat) : ℚ) := by norm_num
    rw [harg, round_natCast]
    norm_num
  · have harg : (2000 * (8 : ℚ)) / 8 = ((2000 : Nat) : ℚ) := by norm_num
    rw [harg, round_natCast]
    norm_num
  · have harg : ((1000 : ℚ) - 1000) * ((8 : ℚ) * 20 / 1000) + (8 : ℚ) * 5 = ((40 : Nat) : ℚ) := by
      norm_num
    rw [harg, round_natCast]
    norm_num
  · have harg : ((2000 : ℚ) - 1000) * ((8 : ℚ) * 20 / 1000) + (8 : ℚ) * 5 = ((200 : Nat) : ℚ) := by
      norm_num
    rw [harg, round_natCast]
    norm_num

/-- Witness for C8 at value 1500 on the OneShot125-configured state: all
three oneshot-family writers store the rounded formula values, and the four
literal conformance equalities hold. -/
theorem oneshotFamilyEncoders_spec_witness :
    wsWrite.motors[0]? = some (testPort (some 3) 1000 1 (some PwmWriteFn.oneshot125)) ∧
    (pwmWriteOneShot125 wsWrite 0 1500 = some { wsWrite with motors := wsWrite.motors.set 0 ({ testPort (some 3) 1000 1 (some PwmWriteFn.oneshot125) with ccr := some ((round ((1500 * ONESHOT125_TIMER_MHZ : ℚ) / 8)).toNat) }) }) ∧
    round (((2000 : ℚ) - 1000) * ((8 : ℚ) * 20 / 1000) + (8 : ℚ) * 5) = 200 :=
  ⟨by decide,
    (oneshotFamilyEncoders_spec wsWrite 0 1500
      (testPort (some 3) 1000 1 (some PwmWriteFn.oneshot125))
      (by decide) (by decide) (by decide) (by decide)).1,
    (oneshotFamilyEncoders_spec wsWrite 0 1500
      (testPort (some 3) 1000 1 (some PwmWriteFn.oneshot125))
      (by decide) (by decide) (by decide) (by decide)).2.2.2.2.2.2⟩

theorem motorAt_initial (i : Nat) : motorAt initialPwmState i = pwmOutputPortZero := by
  unfold motorAt initialPwmState
  rw [List.getD_eq_getElem?_getD, List.getElem?_replicate]
  split_ifs <;> rfl

theorem motorInitLoop_preserves (env : Env) (cfg : MotorConfig) (sel : MotorInitSelect)
    (motorCount : Nat) : ∀ fuel idx s,
    (motorInitLoop env cfg sel motorCount idx fuel s).pwmCompleteWritePtr
        = s.pwmCompleteWritePtr ∧
    (motorInitLoop env cfg sel motorCount idx fuel s).servos = s.servos ∧
    (motorInitLoop env cfg sel motorCount idx fuel s).pwmMotorsEnabled
        = s.pwmMotorsEnabled := by
  intro fuel
  induction fuel with
  | zero => exact fun idx s => ⟨rfl, rfl, rfl⟩
  | succ fuel ih =>
    intro idx s
    by_cases hc : idx < MAX_SUPPORTED_MOTORS ∧ idx < motorCount
    · by_cases htag : cfg.ioTags idx = 0
      · simp [motorInitLoop, if_pos hc, if_pos htag]
      · cases hg : env.timerGetByTag (cfg.ioTags idx) with
        | none =>
          simp [motorInitLoop, if_pos hc, if_neg htag, hg]
        | some hw =>
          by_cases hd : sel.isDigital
          · simp only [motorInitLoop, if_pos hc, if_neg htag, hg, if_pos hd]
            exact ih _ _
          · by_cases hu : sel.useUnsyncedPwm
            · simp only [motorInitLoop, if_pos hc, if_neg htag, hg, if_neg hd, if_pos hu]
              exact ih _ _
            · simp only [motorInitLoop, if_pos hc, if_neg htag, hg, if_neg hd, if_neg hu]
              exact ih _ _
    · simp [motorInitLoop, if_neg hc]

theorem motorInitLoop_spec (env : Env) (cfg : MotorConfig) (sel : MotorInitSelect)
    (motorCount K : Nat)
    (hgood : ∀ i, i < K → cfg.ioTags i ≠ 0 ∧ (env.timerGetByTag (cfg.ioTags i)).isSome)
    (hbad : K < motorCount → K < MAX_SUPPORTED_MOTORS →
      cfg.ioTags K = 0 ∨ env.timerGetByTag (cfg.ioTags K) = none)
    (hK1 : K ≤ motorCount) (hK2 : K ≤ MAX_SUPPORTED_MOTORS) :
    ∀ fuel idx s,
      s.motors.length = MAX_SUPPORTED_MOTORS →
      MAX_SUPPORTED_MOTORS ≤ idx + fuel →
      idx ≤ K →
      (∀ i, idx ≤ i → motorAt s i = pwmOutputPortZero) →
      (∀ i, idx ≤ i → i < K →
        ∃ hw, env.timerGetByTag (cfg.ioTags i) = some hw ∧
          motorAt (motorInitLoop env cfg sel motorCount idx fuel s) i =
            specConfiguredPort cfg sel hw) ∧
      (∀ i, K ≤ i →
        motorAt (motorInitLoop env cfg sel motorCount idx fuel s) i = pwmOutputPortZero) ∧
      (∀ j, j < idx →
        motorAt (motorInitLoop env cfg sel motorCount idx fuel s) j = motorAt s j) := by
  intro fuel
  induction fuel with
  | zero =>
    intro idx s hlen hfuel hidxK hzero
    exact ⟨fun i hi1 hi2 => absurd hi2 (by omega),
      fun i hKi => hzero i (by omega), fun j hj => rfl⟩
  | succ fuel ih =>
    intro idx s hlen hfuel hidxK hzero
    by_cases hc : idx < MAX_SUPPORTED_MOTORS ∧ idx < motorCount
    case neg =>
      have hloop : motorInitLoop env cfg sel motorCount idx (fuel + 1) s = s := by
        simp only [motorInitLoop, if_neg hc]
      rw [hloop]
      exact ⟨fun i hi1 hi2 => absurd hi2 (by omega),
        fun i hKi => hzero i (by omega), fun j hj => rfl⟩
    case pos =>
      have hidxlen : idx < s.motors.length := by omega
      by_cases hik : idx < K
      case pos =>
        obtain ⟨htag, hres⟩ := hgood idx hik
        obtain ⟨hw, hhw⟩ := Option.isSome_iff_exists.mp hres
        by_cases hd : sel.isDigital
        · have hstep : motorInitLoop env cfg sel motorCount idx (fuel + 1) s =
              motorInitLoop env cfg sel motorCount (idx + 1) fuel
                (setMotorPort s idx ({ motorAt s idx with
                  pwmWritePtr := some PwmWriteFn.digital, enabled := true })) := by
            simp only [motorInitLoop, if_pos hc, if_neg htag, hhw, if_pos hd]
          set s' := setMotorPort s idx ({ motorAt s idx with
            pwmWritePtr := some PwmWriteFn.digital, enabled := true }) with hs'
          have hport : motorAt s' idx = specConfiguredPort cfg sel hw := by
            show (s.motors.set idx _).getD idx pwmOutputPortZero = _
            rw [getD_set_self s.motors idx _ pwmOutputPortZero hidxlen, hzero idx le_rfl,
              specConfiguredPort, if_pos hd]
          have hzero' : ∀ i, idx + 1 ≤ i → motorAt s' i = pwmOutputPortZero := by
            intro i hi
            show (s.motors.set idx _).getD i pwmOutputPortZero = _
            rw [getD_set_ne s.motors _ _ (by omega)]
            exact hzero i (by omega)
          have hlen' : s'.motors.length = MAX_SUPPORTED_MOTORS := by
            simp [hs', setMotorPort, hlen]
          obtain ⟨ih1, ih2, ih3⟩ := ih (idx + 1) s' hlen' (by omega) (by omega) hzero'
          rw [hstep]
          refine ⟨?_, ih2, ?_⟩
          · intro i hi1 hi2
            rcases eq_or_lt_of_le hi1 with heq | hlt'
            · refine ⟨hw, by rw [← heq]; exact hhw, ?_⟩
              rw [← heq, ih3 idx (by omega)]
              exact hport
            · exact ih1 i (by omega) hi2
          · intro j hj
            rw [ih3 j (by omega)]
            show (s.motors.set idx _).getD j _ = _
            rw [getD_set_ne s.motors _ _ (by omega)]
            rfl
        · by_cases hu : sel.useUnsyncedPwm
          · have hstep : motorInitLoop env cfg sel motorCount idx (fuel + 1) s =
                motorInitLoop env cfg sel motorCount (idx + 1) fuel
                  (setMotorPort s idx
                    ({ pwmOutConfig { motorAt s idx with pwmWritePtr := some sel.pwmWritePtr }
                        hw sel.timerMhzCounter
                        (sel.timerMhzCounter * 1000000 / cfg.motorPwmRate) sel.idlePulse with
                      enabled := true })) := by
              simp only [motorInitLoop, if_pos hc, if_neg htag, hhw, if_neg hd, if_pos hu]
            set s' := setMotorPort s idx
              ({ pwmOutConfig { motorAt s idx with pwmWritePtr := some sel.pwmWritePtr }
                  hw sel.timerMhzCounter
                  (sel.timerMhzCounter * 1000000 / cfg.motorPwmRate) sel.idlePulse with
                enabled := true }) with hs'
            have hport : motorAt s' idx = specConfiguredPort cfg sel hw := by
              show (s.motors.set idx _).getD idx pwmOutputPortZero = _
              rw [getD_set_self s.motors idx _ pwmOutputPortZero hidxlen, hzero idx le_rfl,
                specConfiguredPort, if_neg hd]
              simp [pwmOutConfig, u16n, if_pos hu]
            have hzero' : ∀ i, idx + 1 ≤ i → motorAt s' i = pwmOutputPortZero := by
              intro i hi
              show (s.motors.set idx _).getD i pwmOutputPortZero = _
              rw [getD_set_ne s.motors _ _ (by omega)]
              exact hzero i (by omega)
            have hlen' : s'.motors.length = MAX_SUPPORTED_MOTORS := by
              simp [hs', setMotorPort, hlen]
            obtain ⟨ih1, ih2, ih3⟩ := ih (idx + 1) s' hlen' (by omega) (by omega) hzero'
            rw [hstep]
            refine ⟨?_, ih2, ?_⟩
            · intro i hi1 hi2
              rcases eq_or_lt_of_le hi1 with heq | hlt'
              · refine ⟨hw, by rw [← heq]; exact hhw, ?_⟩
                rw [← heq, ih3 idx (by omega)]
                exact hport
              · exact ih1 i (by omega) hi2
            · intro j hj
              rw [ih3 j (by omega)]
              show (s.motors.set idx _).getD j _ = _
              rw [getD_set_ne s.motors _ _ (by omega)]
              rfl
          · have hstep : motorInitLoop env cfg sel motorCount idx (fuel + 1) s =
                motorInitLoop env cfg sel motorCount (idx + 1) fuel
                  (setMotorPort s idx
                    ({ pwmOutConfig { motorAt s idx with pwmWritePtr := some sel.pwmWritePtr }
                        hw sel.timerMhzCounter 0xFFFF 0 with enabled := true })) := by
              simp only [motorInitLoop, if_pos hc, if_neg htag, hhw, if_neg hd, if_neg hu]
            set s' := setMotorPort s idx
              ({ pwmOutConfig { motorAt s idx with pwmWritePtr := some sel.pwmWritePtr }
                  hw sel.timerMhzCounter 0xFFFF 0 with enabled := true }) with hs'
            have hport : motorAt s' idx = specConfiguredPort cfg sel hw := by
              show (s.motors.set idx _).getD idx pwmOutputPortZero = _
              rw [getD_set_self s.motors idx _ pwmOutputPortZero hidxlen, hzero idx le_rfl,
                specConfiguredPort, if_neg hd]
              simp [pwmOutConfig, u16n, if_neg hu]
            have hzero' : ∀ i, idx + 1 ≤ i → motorAt s' i = pwmOutputPortZero := by
              intro i hi
              show (s.motors.set idx _).getD i pwmOutputPortZero = _
              rw [getD_set_ne s.motors _ _ (by omega)]
              exact hzero i (by omega)
            have hlen' : s'.motors.length = MAX_SUPPORTED_MOTORS := by
              simp [hs', setMotorPort, hlen]
            obtain ⟨ih1, ih2, ih3⟩ := ih (idx + 1) s' hlen' (by omega) (by omega) hzero'
            rw [hstep]
            refine ⟨?_, ih2, ?_⟩
            · intro i hi1 hi2
              rcases eq_or_lt_of_le hi1 with heq | hlt'
              · refine ⟨hw, by rw [← heq]; exact hhw, ?_⟩
                rw [← heq, ih3 idx (by omega)]
                exact hport
              · exact ih1 i (by omega) hi2
            · intro j hj
              rw [ih3 j (by omega)]
              show (s.motors.set idx _).getD j _ = _
              rw [getD_set_ne s.motors _ _ (by omega)]
              rfl
      case neg =>
        have hKidx : K = idx := by omega
        have hret : motorInitLoop env cfg sel motorCount idx (fuel + 1) s = s := by
          rcases hbad (by omega) (by omega) with hb | hb
          · simp [motorInitLoop, if_pos hc, hKidx ▸ hb]
          · by_cases htag0 : cfg.ioTags idx = 0
            · simp [motorInitLoop, if_pos hc, if_pos htag0]
            · simp [motorInitLoop, if_pos hc, if_neg htag0, hKidx ▸ hb]
        rw [hret]
        exact ⟨fun i hi1 hi2 => absurd hi2 (by omega),
          fun i hKi => hzero i (by omega), fun j hj => rfl⟩

theorem specConfiguredPort_enabled (cfg : MotorConfig) (sel : MotorInitSelect)
    (hw : TimerHardware) : (specConfiguredPort cfg sel hw).enabled = true := by
  unfold specConfiguredPort
  split_ifs <;> rfl

/-- **C6** After a single motor initialization from a state whose completion
binding is NULL, the binding is non-null exactly when resynchronization is
required and `pwmIsSynced` returns exactly that: true when an oneshot-family
protocol (OneShot125, OneShot42, Multishot, or the `switch`'s default
branch) is configured with `useUnsyncedPwm = false` or a digital protocol is
configured, and false for Standard and Brushed and for free-running
oneshot-family configurations. -/
theorem pwmIsSynced_spec (env : Env) (s : PwmState) (motorConfig : MotorConfig)
    (idlePulse motorCount : Nat) (hptr : s.pwmCompleteWritePtr = none) :
    (pwmIsSynced (motorInit env s motorConfig idlePulse motorCount) = true ↔
      (motorInit env s motorConfig idlePulse motorCount).pwmCompleteWritePtr ≠ none) ∧
    (pwmIsSynced (motorInit env s motorConfig idlePulse motorCount) = true ↔
      ((oneshotFamily motorConfig.motorPwmProtocol ∧ motorConfig.useUnsyncedPwm = false) ∨
        isDigitalProtocol motorConfig.motorPwmProtocol)) := by
  obtain ⟨p, u, tags, rate⟩ := motorConfig
  have hpres : ∀ sel s0,
      (motorInitLoop env ⟨p, u, tags, rate⟩ sel motorCount 0 MAX_SUPPORTED_MOTORS
        s0).pwmCompleteWritePtr = s0.pwmCompleteWritePtr :=
    fun sel s0 =>
      (motorInitLoop_preserves env ⟨p, u, tags, rate⟩ sel motorCount
        MAX_SUPPORTED_MOTORS 0 s0).1
  constructor
  · simp [pwmIsSynced, Option.isSome_iff_ne_none]
  · cases p <;> cases u <;>
      simp [motorInit, motorInitSwitch, motorInitSetPtr, pwmIsSynced, hpres, hptr,
        oneshotFamily, isDigitalProtocol]

/-- Witness for C6: synced OneShot125 configuration initialised from the
reset state. -/
theorem pwmIsSynced_spec_witness :
    initialPwmState.pwmCompleteWritePtr = none ∧
    ((pwmIsSynced (motorInit wsEnv initialPwmState wsMotorConfig 1000 2) = true ↔
      (motorInit wsEnv initialPwmState wsMotorConfig 1000 2).pwmCompleteWritePtr ≠ none) ∧
     (pwmIsSynced (motorInit wsEnv initialPwmState wsMotorConfig 1000 2) = true ↔
      ((oneshotFamily wsMotorConfig.motorPwmProtocol ∧
          wsMotorConfig.useUnsyncedPwm = false) ∨
        isDigitalProtocol wsMotorConfig.motorPwmProtocol))) :=
  ⟨rfl, pwmIsSynced_spec wsEnv initialPwmState wsMotorConfig 1000 2 rfl⟩

/-- **C7** Starting from the zero-initialised state, `motorInit` populates
slots in index order and the first failing slot `K` (unset pin tag, or tag
that does not resolve to timer hardware) terminates population: slots
`[0, K)` are enabled and fully configured for the selected protocol (the
free-run period being the `uint16_t`-converted quotient `mhz·10^6 / rate`),
and every slot from `K` up to the capacity keeps its zero-initialised,
disabled contents — independent of the tags and resolutions at or after `K`.
For free-running analog configurations a non-zero configured rate is
assumed, since the source's `hz / motorPwmRate` is division-by-zero
undefined behaviour at rate 0. -/
theorem motorInit_monotonic (env : Env) (motorConfig : MotorConfig)
    (idlePulse motorCount K : Nat)
    (hK1 : K ≤ motorCount) (hK2 : K ≤ MAX_SUPPORTED_MOTORS)
    (hgood : ∀ i, i < K →
      motorConfig.ioTags i ≠ 0 ∧ (env.timerGetByTag (motorConfig.ioTags i)).isSome)
    (hbad : K < motorCount → K < MAX_SUPPORTED_MOTORS →
      motorConfig.ioTags K = 0 ∨ env.timerGetByTag (motorConfig.ioTags K) = none)
    (hrate : (motorInitSwitch motorConfig.motorPwmProtocol motorConfig.useUnsyncedPwm
        idlePulse).useUnsyncedPwm = true →
      (motorInitSwitch motorConfig.motorPwmProtocol motorConfig.useUnsyncedPwm
        idlePulse).isDigital = false →
      motorConfig.motorPwmRate ≠ 0) :
    (∀ i, i < K →
      ∃ hw, env.timerGetByTag (motorConfig.ioTags i) = some hw ∧
        motorAt (motorInit env initialPwmState motorConfig idlePulse motorCount) i =
          specConfiguredPort motorConfig
            (motorInitSwitch motorConfig.motorPwmProtocol motorConfig.useUnsyncedPwm
              idlePulse) hw ∧
        (motorAt (motorInit env initialPwmState motorConfig idlePulse motorCount) i).enabled
          = true) ∧
    (∀ i, K ≤ i →
      motorAt (motorInit env initialPwmState motorConfig idlePulse motorCount) i
          = pwmOutputPortZero ∧
      (motorAt (motorInit env initialPwmState motorConfig idlePulse motorCount) i).enabled
          = false) := by
  have hsm : (motorInitSetPtr
      (motorInitSwitch motorConfig.motorPwmProtocol motorConfig.useUnsyncedPwm idlePulse)
      initialPwmState).motors = initialPwmState.motors := by
    unfold motorInitSetPtr
    split_ifs <;> rfl
  have hzero : ∀ i, 0 ≤ i → motorAt (motorInitSetPtr
      (motorInitSwitch motorConfig.motorPwmProtocol motorConfig.useUnsyncedPwm idlePulse)
      initialPwmState) i = pwmOutputPortZero := by
    intro i _
    show (motorInitSetPtr _ initialPwmState).motors.getD i _ = _
    rw [hsm]
    exact motorAt_initial i
  have hlen : (motorInitSetPtr
      (motorInitSwitch motorConfig.motorPwmProtocol motorConfig.useUnsyncedPwm idlePulse)
      initialPwmState).motors.length = MAX_SUPPORTED_MOTORS := by
    rw [hsm]
    simp [initialPwmState]
  obtain ⟨h1, h2, -⟩ := motorInitLoop_spec env motorConfig
    (motorInitSwitch motorConfig.motorPwmProtocol motorConfig.useUnsyncedPwm idlePulse)
    motorCount K hgood hbad hK1 hK2 MAX_SUPPORTED_MOTORS 0
    (motorInitSetPtr
      (motorInitSwitch motorConfig.motorPwmProtocol motorConfig.useUnsyncedPwm idlePulse)
      initialPwmState) hlen (by omega) (by omega) hzero
  refine ⟨?_, ?_⟩
  · intro i hi
    obtain ⟨hw, hhw, hport⟩ := h1 i (by omega) hi
    exact ⟨hw, hhw, hport,
      (congrArg PwmOutputPort.enabled hport).trans (specConfiguredPort_enabled _ _ _)⟩
  · intro i hi
    exact ⟨h2 i hi, congrArg PwmOutputPort.enabled (h2 i hi)⟩

/-- Witness for C7: resolver failing only on the unset tag, tags set for
slots 0 and 1 of four requested slots (K = 2): slots 0 and 1 are configured
and enabled, slots 2 and up stay zero-initialised and disabled. -/
theorem motorInit_monotonic_witness :
    (2 ≤ 4 ∧ 2 ≤ MAX_SUPPORTED_MOTORS) ∧
    ((∀ i, i < 2 →
      ∃ hw, wsEnv.timerGetByTag (wsMotorConfig.ioTags i) = some hw ∧
        motorAt (motorInit wsEnv initialPwmState wsMotorConfig 1000 4) i =
          specConfiguredPort wsMotorConfig
            (motorInitSwitch wsMotorConfig.motorPwmProtocol wsMotorConfig.useUnsyncedPwm
              1000) hw ∧
        (motorAt (motorInit wsEnv initialPwmState wsMotorConfig 1000 4) i).enabled = true) ∧
     (∀ i, 2 ≤ i →
      motorAt (motorInit wsEnv initialPwmState wsMotorConfig 1000 4) i = pwmOutputPortZero ∧
      (motorAt (motorInit wsEnv initialPwmState wsMotorConfig 1000 4) i).enabled = false)) :=
  ⟨⟨by decide, by decide⟩,
    motorInit_monotonic wsEnv wsMotorConfig 1000 4 2 (by decide) (by decide)
      (by decide) (by decide) (by decide)⟩

/-- Witness for C9: OneShot125-configured motor 0, commands 1200 < 1800; all
five analog write functions store monotone register values. -/
theorem analogEncoders_monotone_witness :
    wsWrite.motors[0]? = some (testPort (some 3) 1000 1 (some PwmWriteFn.oneshot125)) ∧
    (∀ fn, fn ≠ PwmWriteFn.digital →
      ∃ s1 s2 r1 r2,
        pwmWriteCall fn wsWrite 0 1200 = some s1 ∧
        pwmWriteCall fn wsWrite 0 1800 = some s2 ∧
        (motorAt s1 0).ccr = some r1 ∧
        (motorAt s2 0).ccr = some r2 ∧
        r1 ≤ r2) :=
  ⟨by decide,
    analogEncoders_monotone wsWrite 0 1200 1800
      (testPort (some 3) 1000 1 (some PwmWriteFn.oneshot125))
      (by decide) (by decide) (by decide) (by decide) (by decide) (by decide)⟩

end PwmOutput
